import Mathlib

/-!
# Verification of the Echo bot's session, collection and text-processing core

Shallow embedding of the Python sources under `src/` (echo session manager,
message processor, validation utilities, text processor, ollama client,
personality engine) together with proofs about the embedded definitions.

Conventions used throughout the embedding:
* Discord snowflake ids are modelled as `Nat` (the Python code stores them as
  decimal strings; the conversion is injective so `Nat` keys are faithful).
* `datetime` values are modelled as `Nat` seconds on a proleptic civil
  timeline (the code only ever compares datetimes and subtracts them).
* Python character classes `\w`, `\d`, `\s` are modelled over their ASCII
  fragments; the sources only rely on the ASCII behaviour for every property
  proved here.
* Python float comparisons such as `ratio < 0.3` are modelled by the exact
  rational comparison (`10 * a < 3 * b`); the two agree on all inputs of the
  sizes the program manipulates.
-/

/-! ## Shared character utilities (src/utils/text_processor.py helpers) -/

/-- ASCII fragment of Python's `\s` class (`str.split()` / `str.strip()`
whitespace). -/
def isSpaceA (c : Char) : Bool :=
  c == ' ' || c == '\t' || c == '\n' || c == '\x0d' || c == '\x0b' || c == '\x0c'

/-- Python `\d` (ASCII fragment). -/
def isDigitA (c : Char) : Bool :=
  '0' ≤ c && c ≤ '9'

/-- Python `\w` (ASCII fragment): letters, digits and underscore. -/
def isWordA (c : Char) : Bool :=
  ('a' ≤ c && c ≤ 'z') || ('A' ≤ c && c ≤ 'Z') || isDigitA c || c == '_'

/-- Python's `str.strip()` on a character list. -/
def stripWs (l : List Char) : List Char :=
  List.rdropWhile isSpaceA (l.dropWhile isSpaceA)

/-- `re.sub(r'\s+', ' ', content)`: every maximal whitespace run becomes one
space. -/
def collapseWs : List Char → List Char
  | [] => []
  | c :: rest =>
    if isSpaceA c then ' ' :: collapseWs (rest.dropWhile isSpaceA)
    else c :: collapseWs rest
termination_by l => l.length
decreasing_by
  · simp only [List.length_cons]
    exact Nat.lt_succ_of_le (List.dropWhile_suffix _).length_le
  · simp

/-- Does `pat` occur as a prefix of `hay`? (char-list version of
Python's `str.startswith`). -/
def startsWithL : List Char → List Char → Bool
  | _, [] => true
  | [], _ :: _ => false
  | c :: cs, d :: ds => c == d && startsWithL cs ds

/-- Does `pat` occur as a contiguous substring of `hay`? (Python's
`pat in hay`). -/
def hasSubL : List Char → List Char → Bool
  | hay, pat =>
    if startsWithL hay pat then true
    else
      match hay with
      | [] => false
      | _ :: t => hasSubL t pat

/-- Python `str.lower()` (ASCII fragment, which is all the sources use). -/
def lowerStr (s : String) : String :=
  String.mk (s.data.map Char.toLower)

/-- Python `str.strip()` on strings. -/
def pyStrip (s : String) : String :=
  String.mk (stripWs s.data)

/-- Python `str.split()` with no separator: the maximal non-whitespace runs
(empty pieces dropped).  `cur` accumulates the current word reversed. -/
def wordsGo (cur : List Char) : List Char → List (List Char)
  | [] => if cur = [] then [] else [cur.reverse]
  | c :: rest =>
    if isSpaceA c then
      if cur = [] then wordsGo [] rest else cur.reverse :: wordsGo [] rest
    else wordsGo (c :: cur) rest

/-- Python `str.split()` on strings. -/
def pyWords (s : String) : List String :=
  (wordsGo [] s.data).map String.mk

/-! ## Data model: `echo_profiles` and `echo_sessions` tables
(src/services/echo_session_manager.py, src/services/message_processor.py) -/

/-- One row of the `echo_profiles` table.  Nullable columns are `Option`s. -/
structure ProfileRow where
  id : Nat
  user_id : Nat
  server_id : Nat
  training_status : Option String
  training_progress : Option Nat
  total_messages : Option Nat
  processed_messages : Option Nat
  started_at : Option Nat
  completed_at : Option Nat
  error_message : Option String
  model_path : Option String
deriving Repr, DecidableEq

/-- One row of the `echo_sessions` table. -/
structure SessionRow where
  id : Nat
  profile_id : Nat
  channel_id : Nat
  server_id : Nat
  requester_id : Nat
  is_active : Bool
  messages_generated : Nat
  conversations_started : Nat
  started_at : Nat
  stopped_at : Option Nat
  last_activity : Nat
deriving Repr, DecidableEq

/-- The session store: the `echo_sessions` table plus sqlite's rowid counter
(`cursor.lastrowid` of the next INSERT). -/
structure SessionStore where
  rows : List SessionRow
  next_id : Nat
deriving Repr, DecidableEq

/-- Row predicate used by every `WHERE channel_id = ? AND is_active = 1`
clause. -/
def activeInChannel (ch : Nat) (r : SessionRow) : Bool :=
  r.channel_id == ch && r.is_active

/-- `SELECT COUNT(*) FROM echo_sessions WHERE server_id = ? AND is_active = 1`. -/
def countActiveInServer (server_id : Nat) (rows : List SessionRow) : Nat :=
  rows.countP (fun r => r.server_id == server_id && r.is_active)

/-- `SELECT id FROM echo_profiles WHERE user_id = ? AND server_id = ? AND
training_status = 'completed'` followed by `fetchone`. -/
def findCompletedProfile (profiles : List ProfileRow) (user_id server_id : Nat) :
    Option ProfileRow :=
  profiles.find? fun p =>
    p.user_id == user_id && p.server_id == server_id &&
      p.training_status == some "completed"

/-- `EchoSessionManager.can_start_new_session`: active-session count for the
server is strictly below the configured ceiling
(`max_active_sessions_per_server`, default 5). -/
def can_start_new_session (max_sessions : Nat) (st : SessionStore)
    (server_id : Nat) : Bool :=
  countActiveInServer server_id st.rows < max_sessions

/-- The `UPDATE echo_sessions SET is_active = 0, stopped_at = ? WHERE
channel_id = ? AND is_active = 1` statement shared by `start_echo_session`
and `stop_echo_session`. -/
def deactivateChannel (ch now : Nat) (rows : List SessionRow) : List SessionRow :=
  rows.map fun r =>
    if activeInChannel ch r then { r with is_active := false, stopped_at := some now }
    else r

/-- `EchoSessionManager.start_echo_session`: look up the completed profile
(raising `Exception("Echo profile not found or not ready")` otherwise),
deactivate any active session in the channel, then insert a fresh active row.
Returns the new row together with the updated store. -/
def start_echo_session (profiles : List ProfileRow) (st : SessionStore)
    (user_id channel_id server_id requester_id now : Nat) :
    Except String (SessionRow × SessionStore) :=
  match findCompletedProfile profiles user_id server_id with
  | none => .error "Echo profile not found or not ready"
  | some p =>
    let newRow : SessionRow :=
      { id := st.next_id, profile_id := p.id, channel_id := channel_id,
        server_id := server_id, requester_id := requester_id, is_active := true,
        messages_generated := 0, conversations_started := 0,
        started_at := now, stopped_at := none, last_activity := now }
    .ok (newRow,
      { rows := deactivateChannel channel_id now st.rows ++ [newRow],
        next_id := st.next_id + 1 })

/-- `EchoSessionManager.stop_echo_session`: deactivate the channel's active
session(s); the returned Bool is `rows_affected > 0`. -/
def stop_echo_session (st : SessionStore) (channel_id now : Nat) :
    Bool × SessionStore :=
  let affected := st.rows.countP (activeInChannel channel_id)
  (affected > 0, { st with rows := deactivateChannel channel_id now st.rows })

/-- `EchoSessionManager.cleanup_inactive_sessions`: deactivate every active
session whose `last_activity` is older than the cutoff; returns how many. -/
def cleanup_inactive_sessions (st : SessionStore) (cutoff_time now : Nat) :
    Nat × SessionStore :=
  let stale := st.rows.filter fun r => r.is_active && r.last_activity < cutoff_time
  if stale.isEmpty then (0, st)
  else
    (stale.length,
      { st with rows := st.rows.map fun r =>
          if (r.id ∈ stale.map SessionRow.id : Bool) then
            { r with is_active := false, stopped_at := some now }
          else r })

/-- `EchoSessionManager.update_session_activity`. -/
def update_session_activity (st : SessionStore) (channel_id now : Nat) :
    SessionStore :=
  { st with rows := st.rows.map fun r =>
      if activeInChannel channel_id r then { r with last_activity := now } else r }

/-- `EchoSessionManager.increment_session_stats`. -/
def increment_session_stats (st : SessionStore)
    (channel_id dmsg dconv now : Nat) : SessionStore :=
  { st with rows := st.rows.map fun r =>
      if activeInChannel channel_id r then
        { r with messages_generated := r.messages_generated + dmsg,
                 conversations_started := r.conversations_started + dconv,
                 last_activity := now }
      else r }

/-- The per-channel invariant: at most one `is_active` row per channel. -/
def ChannelInv (rows : List SessionRow) : Prop :=
  ∀ ch : Nat, rows.countP (activeInChannel ch) ≤ 1

/-- `EchoSessionManager.is_echo_active`: is a session for `user_id`'s profile
active in the channel (JOIN through `echo_profiles`)? -/
def is_echo_active (profiles : List ProfileRow) (st : SessionStore)
    (user_id channel_id : Nat) : Bool :=
  st.rows.any fun r =>
    activeInChannel channel_id r &&
      profiles.any fun p => p.id == r.profile_id && p.user_id == user_id

/-- `EchoSessionManager.has_echo_profile`. -/
def has_echo_profile (profiles : List ProfileRow) (user_id server_id : Nat) :
    Bool :=
  (findCompletedProfile profiles user_id server_id).isSome

/-- Outcome of the `/echo online` command handler. -/
inductive OnlineOutcome where
  | profileNotFound
  | alreadyActive
  | limitReached
  | started (session : SessionRow)
  | errorOut (msg : String)
deriving Repr, DecidableEq

/-- The `/echo online` flow of `src/cogs/echo.py` (`Echo.echo_online`) for an
explicit target user: profile existence check, already-active check, server
capacity check ("Session Limit Reached"), then `start_echo_session`. -/
def echo_online (profiles : List ProfileRow) (st : SessionStore)
    (max_sessions user_id channel_id server_id requester_id now : Nat) :
    OnlineOutcome × SessionStore :=
  if ¬ has_echo_profile profiles user_id server_id then (.profileNotFound, st)
  else if is_echo_active profiles st user_id channel_id then (.alreadyActive, st)
  else if ¬ can_start_new_session max_sessions st server_id then (.limitReached, st)
  else
    match start_echo_session profiles st user_id channel_id server_id requester_id now with
    | .ok (row, st') => (.started row, st')
    | .error e => (.errorOut e, st)

/-! ## Message-content validity and collection
(src/utils/text_processor.py `is_valid_message_content`,
src/services/message_processor.py `collect_user_messages`) -/

/-- `is_valid_message_content`: non-empty after strip, stripped length at
least 3, ratio of `[\w\s]` characters at least 0.3 (exact-rational model of
the float comparison), and not starting with a command-prefix character. -/
def is_valid_message_content (content : String) : Bool :=
  if content = "" || (pyStrip content).length = 0 then false
  else if (pyStrip content).length < 3 then false
  else if 10 * (content.data.countP fun c => isWordA c || isSpaceA c)
      < 3 * content.data.length then false
  else if (pyStrip content).data.head? ∈
      ['!', '/', '.', '?', '$', '+', '-', '>', '<'].map some then false
  else true

/-- A raw Discord message as seen by the collector. -/
structure RawMsg where
  msg_id : Nat
  author_id : Nat
  author_bot : Bool
  content : String
  created_at : Nat
deriving Repr, DecidableEq

/-- A text channel: the permission check's verdict plus the channel history
in the order the API yields it. -/
structure GuildChannel where
  perms_ok : Bool
  history : List RawMsg
deriving Repr, DecidableEq

/-- The filter applied by `_get_user_messages_from_channel`: history strictly
before the cutoff, authored by the target non-bot user, with non-empty valid
content. -/
def eligibleMsg (user_id cutoff : Nat) (m : RawMsg) : Bool :=
  m.created_at < cutoff && m.author_id == user_id && !m.author_bot &&
    m.content ≠ "" && is_valid_message_content m.content

/-- The per-channel loop of `collect_user_messages`: append each eligible
message; after an append, if the accumulated total has reached 10000, `break`
out of this channel's loop (only). -/
def scanChannel (user_id cutoff : Nat) (acc : List RawMsg) :
    List RawMsg → List RawMsg
  | [] => acc
  | m :: rest =>
    if eligibleMsg user_id cutoff m then
      let acc2 := acc ++ [m]
      if 10000 ≤ acc2.length then acc2 else scanChannel user_id cutoff acc2 rest
    else scanChannel user_id cutoff acc rest

/-- `MessageProcessor.collect_user_messages`: iterate the server's text
channels, skipping those whose permission check fails, accumulating across
channels. -/
def collect_user_messages (user_id cutoff : Nat)
    (channels : List GuildChannel) : List RawMsg :=
  channels.foldl
    (fun acc ch => if ch.perms_ok then scanChannel user_id cutoff acc ch.history else acc)
    []

/-! ## Dataset-size validation (src/utils/validation.py, `_run_analysis`) -/

/-- `validate_training_dataset_size` (defaults `min_messages = 50`,
`max_messages = 10000`). -/
def validate_training_dataset_size (message_count min_messages max_messages : Nat) :
    Bool × Option String :=
  if message_count < min_messages then
    (false,
      some s!"Insufficient messages for training. Found {message_count}, need at least {min_messages}")
  else if message_count > max_messages then
    (false,
      some s!"Too many messages for training. Found {message_count}, maximum is {max_messages}")
  else (true, none)

/-- The size gate of `MessageProcessor._run_analysis`: an empty collection
raises "No messages found ..."; otherwise an invalid
`validate_training_dataset_size` verdict is raised as-is. -/
def analysis_size_gate (message_count : Nat) : Except String Unit :=
  if message_count = 0 then
    .error "No messages found for this user before the cutoff date"
  else
    let v := validate_training_dataset_size message_count 50 10000
    if v.1 then .ok () else .error (v.2.getD "")

/-! ## Status queries (src/services/message_processor.py
`get_analysis_status`, src/services/personality_engine.py
`get_training_status`) -/

/-- The dictionary returned by `get_analysis_status`. -/
structure AnalysisStatus where
  status : Option String
  progress : Nat
  total_messages : Nat
  processed_messages : Nat
  started_at : Option Nat
  completed_at : Option Nat
  error_message : Option String
deriving Repr, DecidableEq

/-- `SELECT ... FROM echo_profiles WHERE user_id = ? AND server_id = ?`. -/
def findProfile (profiles : List ProfileRow) (user_id server_id : Nat) :
    Option ProfileRow :=
  profiles.find? fun p => p.user_id == user_id && p.server_id == server_id

/-- `MessageProcessor.get_analysis_status`. -/
def get_analysis_status (profiles : List ProfileRow) (user_id server_id : Nat) :
    AnalysisStatus :=
  match findProfile profiles user_id server_id with
  | none =>
    { status := some "not_started", progress := 0, total_messages := 0,
      processed_messages := 0, started_at := none, completed_at := none,
      error_message := none }
  | some r =>
    { status := r.training_status, progress := r.training_progress.getD 0,
      total_messages := r.total_messages.getD 0,
      processed_messages := r.processed_messages.getD 0,
      started_at := r.started_at, completed_at := r.completed_at,
      error_message := r.error_message }

/-- The dictionary returned by `get_training_status`. -/
structure TrainingStatus where
  status : String
  progress : Nat
  started_at : Option Nat
  completed_at : Option Nat
  error_message : Option String
  model_path : Option String
deriving Repr, DecidableEq

/-- `PersonalityEngine.get_training_status` (`result[0] or "not_started"`
maps a NULL or empty status to `"not_started"`). -/
def get_training_status (profiles : List ProfileRow) (user_id server_id : Nat) :
    TrainingStatus :=
  match findProfile profiles user_id server_id with
  | none =>
    { status := "not_started", progress := 0, started_at := none,
      completed_at := none, error_message := none, model_path := none }
  | some r =>
    { status :=
        match r.training_status with
        | none => "not_started"
        | some st => if st = "" then "not_started" else st,
      progress := r.training_progress.getD 0,
      started_at := r.started_at, completed_at := r.completed_at,
      error_message := r.error_message, model_path := r.model_path }

/-! ## Civil dates (src/utils/validation.py `validate_cutoff_date`,
src/utils/date_parser.py, src/services/ollama_client.py timestamps)

`datetime` values are encoded as seconds since 0001-01-01 00:00 on the
proleptic Gregorian calendar, exactly the timeline `datetime.toordinal` uses;
the code only compares and subtracts datetimes, so the encoding is faithful. -/

def isLeapYear (y : Nat) : Bool :=
  (y % 4 == 0 && y % 100 != 0) || y % 400 == 0

def daysInMonth (y m : Nat) : Nat :=
  if m = 2 then (if isLeapYear y then 29 else 28)
  else if m = 4 || m = 6 || m = 9 || m = 11 then 30
  else 31

/-- Days of all years strictly before year `y` (year 1 is the first year). -/
def daysBeforeYear (y : Nat) : Nat :=
  365 * (y - 1) + (y - 1) / 4 - (y - 1) / 100 + (y - 1) / 400

/-- Days of all months of year `y` strictly before month `m`. -/
def daysBeforeMonth (y m : Nat) : Nat :=
  (List.range (m - 1)).foldl (fun a i => a + daysInMonth y (i + 1)) 0

/-- Midnight of the civil date `(y, m, d)` in seconds. -/
def dtSeconds (y m d : Nat) : Nat :=
  86400 * (daysBeforeYear y + daysBeforeMonth y m + (d - 1))

/-- The regex `^\d{1,2}\.\d{1,2}\.\d{4}$` with the three digit groups
extracted (day, month, year). -/
def dateFormatOk (s : String) : Option (Nat × Nat × Nat) :=
  let l := s.data
  let dds := l.takeWhile isDigitA
  let r1 := l.dropWhile isDigitA
  match r1 with
  | '.' :: r1' =>
    let mms := r1'.takeWhile isDigitA
    let r2 := r1'.dropWhile isDigitA
    match r2 with
    | '.' :: r2' =>
      let yys := r2'.takeWhile isDigitA
      let r3 := r2'.dropWhile isDigitA
      if r3 = [] && (dds.length = 1 || dds.length = 2) &&
          (mms.length = 1 || mms.length = 2) && yys.length = 4 then
        some ((dds.foldl (fun a c => 10 * a + (c.toNat - 48)) 0),
              (mms.foldl (fun a c => 10 * a + (c.toNat - 48)) 0),
              (yys.foldl (fun a c => 10 * a + (c.toNat - 48)) 0))
      else none
    | _ => none
  | _ => none

/-- `datetime.strptime(_, "%d.%m.%Y")` value validity: a real calendar date
of a positive 4-digit year. -/
def strptimeValid (d m y : Nat) : Bool :=
  1 ≤ y && 1 ≤ m && m ≤ 12 && 1 ≤ d && d ≤ daysInMonth y m

/-- `utils.validation.validate_cutoff_date` run at time `now`:
format check, value check, future check, pre-2015 check. -/
def validate_cutoff_date (s : String) (now : Nat) : Bool × Option String :=
  if s = "" then (false, some "Date cannot be empty")
  else
    match dateFormatOk s with
    | none => (false, some "Date must be in DD.MM.YYYY format")
    | some (d, m, y) =>
      if ¬ strptimeValid d m y then (false, some "Invalid date values")
      else if dtSeconds y m d > now then
        (false, some "Cutoff date cannot be in the future")
      else if dtSeconds y m d < dtSeconds 2015 1 1 then
        (false, some "Cutoff date cannot be before 2015")
      else (true, none)

/-- `utils.date_parser.parse_dd_mm_yyyy`: strip, then
`datetime.strptime(_, "%d.%m.%Y")`; no future or epoch check. -/
def parse_dd_mm_yyyy (s : String) : Option (Nat × Nat × Nat) :=
  match dateFormatOk (pyStrip s) with
  | none => none
  | some (d, m, y) => if strptimeValid d m y then some (d, m, y) else none

/-- `utils.date_parser.is_valid_cutoff_date`: not after now. -/
def is_valid_cutoff_date (dt now : Nat) : Bool :=
  dt ≤ now

/-- Outcome of the `/echo analyze` command handler. -/
inductive AnalyzeOutcome where
  | invalidDate
  | permissionDenied
  | inProgress
  | started (cutoff : Nat × Nat × Nat)
deriving Repr, DecidableEq

/-- The `/echo analyze` flow of `src/cogs/echo.py` (`Echo.echo_analyze`):
parse the date (format only), check permission, check an analysis is not
already running, then start the analysis.  No cutoff-range validation is
performed anywhere on this path. -/
def echo_analyze (can_analyze in_progress : Bool) (cutoff_date : String) :
    AnalyzeOutcome :=
  match parse_dd_mm_yyyy cutoff_date with
  | none => .invalidDate
  | some dmy =>
    if ¬ can_analyze then .permissionDenied
    else if in_progress then .inProgress
    else .started dmy

/-! ## Stale-model cleanup (src/services/ollama_client.py
`cleanup_old_models`) -/

/-- Python `str.split('_')` on a character list (keeps empty pieces). -/
def splitUnderscore : List Char → List (List Char)
  | [] => [[]]
  | c :: rest =>
    if c = '_' then [] :: splitUnderscore rest
    else
      match splitUnderscore rest with
      | [] => [[c]]
      | p :: ps => (c :: p) :: ps

/-- `datetime.strptime(_, '%Y%m%d_%H%M%S')` as used on generated model
names, returning the encoded timestamp in seconds.  Modelled for the
fixed-width form `YYYYMMDD_HHMMSS`; every theorem below relies only on the
format's literal `_`, which CPython's strptime requires in exactly the same
way for every width variant. -/
def parseTS (l : List Char) : Option Nat :=
  match l with
  | [y1, y2, y3, y4, m1, m2, d1, d2, '_', h1, h2, n1, n2, s1, s2] =>
    if [y1, y2, y3, y4, m1, m2, d1, d2, h1, h2, n1, n2, s1, s2].all isDigitA then
      let dig := fun c : Char => c.toNat - 48
      let y := 1000 * dig y1 + 100 * dig y2 + 10 * dig y3 + dig y4
      let mo := 10 * dig m1 + dig m2
      let d := 10 * dig d1 + dig d2
      let h := 10 * dig h1 + dig h2
      let mi := 10 * dig n1 + dig n2
      let se := 10 * dig s1 + dig s2
      if 1 ≤ y && 1 ≤ mo && mo ≤ 12 && 1 ≤ d && d ≤ daysInMonth y mo &&
          h ≤ 23 && mi ≤ 59 && se ≤ 61 then
        some (dtSeconds y mo d + 3600 * h + 60 * mi + se)
      else none
    else none
  | _ => none

/-- `OllamaClient.cleanup_old_models` run at time `now`: for each model name
with the `echo_user_` prefix, parse `name.split('_')[-1]` with
`'%Y%m%d_%H%M%S'`; on failure skip the model; on success delete it when it is
older than `days_old` days (`timedelta.days` floor semantics).  Returns the
deletion count and the deleted names. -/
def cleanup_step (days_old now : Nat) (acc : Nat × List String)
    (name : String) : Nat × List String :=
  if ¬ startsWithL name.data "echo_user_".data then acc
  else
    match parseTS ((splitUnderscore name.data).getLastD []) with
    | none => acc
    | some ts =>
      if ts ≤ now && (now - ts) / 86400 > days_old then
        (acc.1 + 1, acc.2 ++ [name])
      else acc

def cleanup_old_models (models : List String) (days_old now : Nat) :
    Nat × List String :=
  models.foldl (cleanup_step days_old now) (0, [])

/-! ## Response quality gate (src/services/personality_engine.py
`validate_model_response`) -/

/-- The artifact substrings rejected by the quality gate. -/
def ai_artifacts : List String :=
  ["[INST]", "[/INST]", "<|", "|>", "###", "```",
   "I don\x27t have", "I cannot", "As an AI", "I\x27m an AI"]

/-- `PersonalityEngine.validate_model_response` with the configured
`max_response_length` (default 2000): rejects blank or too-short responses,
over-long responses, low lexical diversity (< 0.3 unique-word ratio, exact
rational model of the float comparison), and any case-insensitive artifact
substring. -/
def validate_model_response (max_response_length : Nat) (response : String) :
    Bool :=
  if (pyStrip response).length = 0 then false
  else if response.length > max_response_length then false
  else if (pyStrip response).length < 2 then false
  else if (pyWords response).length > 1 &&
      10 * (pyWords response).eraseDups.length < 3 * (pyWords response).length then
    false
  else if ai_artifacts.any
      (fun a => hasSubL (lowerStr response).data (lowerStr a).data) then false
  else true

/-! ## Discord-content cleaning (src/utils/text_processor.py
`clean_discord_content`)

Each `re.sub` call is modelled by a left-to-right scanner: at every position
try the pattern; on a match, emit the replacement and resume after the
consumed span, otherwise emit the character and advance.  The five patterns
are deterministic (no alternative needs regex backtracking), so a one-pass
greedy matcher is exact. -/

/-- The character class of the URL regex
`(?:[a-zA-Z]|[0-9]|[$-_@.&+]|[!*\\(\\),]|(?:%[0-9a-fA-F][0-9a-fA-F]))`:
`!`, the `$`..`_` range (which already contains all of `$-_@.&+*\(),%` and
the digits and capitals), and the lowercase letters. -/
def isUrlChar (c : Char) : Bool :=
  c == '!' || (36 ≤ c.toNat && c.toNat ≤ 95) || (97 ≤ c.toNat && c.toNat ≤ 122)

/-- `\d+>`: a maximal nonempty digit run followed by `>`; returns the rest. -/
def digitsThenGt (l : List Char) : Option (List Char) :=
  match l.takeWhile isDigitA, l.dropWhile isDigitA with
  | _ :: _, '>' :: r => some r
  | _, _ => none

/-- `\w+:\d+>`: a maximal nonempty word run, `:`, then `digitsThenGt`. -/
def wordColonDigitsGt (l : List Char) : Option (List Char) :=
  match l.takeWhile isWordA, l.dropWhile isWordA with
  | _ :: _, ':' :: r => digitsThenGt r
  | _, _ => none

/-- `(?:...)+`: a maximal nonempty run of URL-class characters. -/
def urlRun (l : List Char) : Option (List Char) :=
  match l.takeWhile isUrlChar with
  | [] => none
  | _ :: _ => some (l.dropWhile isUrlChar)

/-- `<@!?(\d+)>` (the optional `!` needs no backtracking: `!` is not a
digit). -/
def matchUser : List Char → Option (List Char)
  | '<' :: '@' :: '!' :: rest => digitsThenGt rest
  | '<' :: '@' :: rest => digitsThenGt rest
  | _ => none

/-- `<@&(\d+)>`. -/
def matchRole : List Char → Option (List Char)
  | '<' :: '@' :: '&' :: rest => digitsThenGt rest
  | _ => none

/-- `<#(\d+)>`. -/
def matchChannel : List Char → Option (List Char)
  | '<' :: '#' :: rest => digitsThenGt rest
  | _ => none

/-- `<a?:\w+:\d+>` (the optional `a` needs no backtracking: `a` is not
`:`). -/
def matchEmoji : List Char → Option (List Char)
  | '<' :: 'a' :: ':' :: rest => wordColonDigitsGt rest
  | '<' :: ':' :: rest => wordColonDigitsGt rest
  | _ => none

/-- `http[s]?://(?:...)+` with the class `isUrlChar` (the optional `s` needs
no backtracking: `s` is not `:`). -/
def matchURL : List Char → Option (List Char)
  | 'h' :: 't' :: 't' :: 'p' :: 's' :: ':' :: '/' :: '/' :: rest => urlRun rest
  | 'h' :: 't' :: 't' :: 'p' :: ':' :: '/' :: '/' :: rest => urlRun rest
  | _ => none

/-- `re.sub(pattern, replacement, _)` for a scanner `m`: leftmost matches are
replaced and scanning resumes after each consumed span.  (The length guard is
a termination device; every matcher used here consumes at least one
character, so the guard is always true — see `substM_cons_of_pos`.) -/
def substM (m : List Char → Option (List Char)) (rep : List Char) :
    List Char → List Char
  | [] => []
  | c :: rest =>
    match m (c :: rest) with
    | some r =>
      if _h : r.length ≤ rest.length then rep ++ substM m rep r
      else c :: substM m rep rest
    | none => c :: substM m rep rest
termination_by l => l.length
decreasing_by
  all_goals simp only [List.length_cons]
  all_goals omega

/-- Does pattern `m` match at any position of the list? -/
def hasMf (m : List Char → Option (List Char)) : List Char → Bool
  | [] => false
  | c :: rest => (m (c :: rest)).isSome || hasMf m rest

def repUSER : List Char := "[USER]".data
def repROLE : List Char := "[ROLE]".data
def repCHANNEL : List Char := "[CHANNEL]".data
def repEMOJI : List Char := "[EMOJI]".data
def repURL : List Char := "[URL]".data

/-- The character-list pipeline of `clean_discord_content`: the five
substitutions in source order, then whitespace collapse and strip. -/
def cleanL (l : List Char) : List Char :=
  stripWs <| collapseWs <|
    substM matchURL repURL <|
    substM matchEmoji repEMOJI <|
    substM matchChannel repCHANNEL <|
    substM matchRole repROLE <|
    substM matchUser repUSER l

/-- `utils.text_processor.clean_discord_content`: the five substitutions in
source order, then whitespace collapse and strip; empty input is returned
unchanged. -/
def clean_discord_content (s : String) : String :=
  if s = "" then "" else String.mk (cleanL s.data)


/-! ## Concrete witness data -/

/-- Two completed echo profiles in server 20 (users 10 and 11). -/
def wProfiles : List ProfileRow :=
  [{ id := 1, user_id := 10, server_id := 20, training_status := some "completed",
     training_progress := some 100, total_messages := some 60,
     processed_messages := some 60, started_at := some 1, completed_at := some 2,
     error_message := none, model_path := some "echo_user_10" },
   { id := 2, user_id := 11, server_id := 20, training_status := some "completed",
     training_progress := some 100, total_messages := some 70,
     processed_messages := some 70, started_at := some 1, completed_at := some 2,
     error_message := none, model_path := some "echo_user_11" }]

/-- The session row created by starting user 10's echo in channel 7 at t=100
on an empty store. -/
def wRow1 : SessionRow :=
  { id := 0, profile_id := 1, channel_id := 7, server_id := 20,
    requester_id := 99, is_active := true, messages_generated := 0,
    conversations_started := 0, started_at := 100, stopped_at := none,
    last_activity := 100 }

/-- The session row created by then starting user 11's echo in the same
channel 7 at t=200. -/
def wRow2 : SessionRow :=
  { id := 1, profile_id := 2, channel_id := 7, server_id := 20,
    requester_id := 98, is_active := true, messages_generated := 0,
    conversations_started := 0, started_at := 200, stopped_at := none,
    last_activity := 200 }

/-- Store after the first start. -/
def wSt1 : SessionStore := { rows := [wRow1], next_id := 1 }

/-- Store after the superseding second start. -/
def wSt2 : SessionStore :=
  { rows := [{ wRow1 with is_active := false, stopped_at := some 200 }, wRow2],
    next_id := 2 }

/-- A store holding five active sessions of server 20 (channels 1-5). -/
def wStFull : SessionStore :=
  { rows := [1, 2, 3, 4, 5].map fun ch =>
      { id := ch, profile_id := 3, channel_id := ch, server_id := 20,
        requester_id := 99, is_active := true, messages_generated := 0,
        conversations_started := 0, started_at := 50, stopped_at := none,
        last_activity := 50 },
    next_id := 6 }

/-- An eligible collected message (author 1, not a bot, valid content,
timestamp before cutoff 10). -/
def wGoodMsg : RawMsg :=
  { msg_id := 1, author_id := 1, author_bot := false, content := "hello there",
    created_at := 0 }

/-- Two permitted channels: the first holds 10000 eligible messages, the
second one more. -/
def wChans : List GuildChannel :=
  [{ perms_ok := true, history := List.replicate 10000 wGoodMsg },
   { perms_ok := true, history := [wGoodMsg] }]

/-- Characters that can occur inside a `<@...>` user-mention match. -/
def goodUser (c : Char) : Bool :=
  c == '<' || c == '@' || c == '!' || c == '>' || isDigitA c

/-- Characters that can occur inside a `<@&...>` role-mention match. -/
def goodRole (c : Char) : Bool :=
  c == '<' || c == '@' || c == '&' || c == '>' || isDigitA c

/-- Characters that can occur inside a `<#...>` channel-mention match. -/
def goodChan (c : Char) : Bool :=
  c == '<' || c == '#' || c == '>' || isDigitA c

/-- Characters that can occur inside a `<a?:...:...>` emoji match. -/
def goodEmoji (c : Char) : Bool :=
  c == '<' || c == ':' || c == '>' || isWordA c || isDigitA c

/-- Characters that can occur inside a URL match. -/
def goodUrl (c : Char) : Bool :=
  c == 'h' || c == 't' || c == 'p' || c == 's' || c == ':' || c == '/' ||
    isUrlChar c

/-- Whitespace normal form: every whitespace character is a single space not
followed by another whitespace character. -/
def wsNormal : List Char → Bool
  | [] => true
  | c :: rest =>
    (if isSpaceA c then c == ' ' && !(isSpaceA (rest.headD 'x')) else true) &&
      wsNormal rest

/-! ## Session-store lemmas -/

theorem deactMap_le (ch' now : Nat) (g : SessionRow → Bool) (rows : List SessionRow) :
    (rows.map fun r =>
        if g r then { r with is_active := false, stopped_at := some now } else r).countP
      (activeInChannel ch') ≤ rows.countP (activeInChannel ch') := by
  rw [List.countP_map]
  refine List.countP_mono_left fun r _ h => ?_
  by_cases hg : g r = true
  · exfalso
    rw [Function.comp_apply, if_pos hg] at h
    simp [activeInChannel] at h
  · rwa [Function.comp_apply, if_neg hg] at h

theorem countP_deactivate_le (ch ch' now : Nat) (rows : List SessionRow) :
    (deactivateChannel ch now rows).countP (activeInChannel ch')
      ≤ rows.countP (activeInChannel ch') := by
  rw [deactivateChannel]
  exact deactMap_le ch' now _ rows

theorem countP_deactivate_self (ch now : Nat) (rows : List SessionRow) :
    (deactivateChannel ch now rows).countP (activeInChannel ch) = 0 := by
  rw [deactivateChannel, List.countP_eq_zero]
  intro a ha
  rcases List.mem_map.mp ha with ⟨r, _, rfl⟩
  by_cases h : activeInChannel ch r = true
  · rw [if_pos h]
    simp [activeInChannel]
  · rw [if_neg h]
    exact h

theorem filter_deactivate_self (ch now : Nat) (rows : List SessionRow) :
    (deactivateChannel ch now rows).filter (activeInChannel ch) = [] := by
  rw [← List.length_eq_zero, ← List.countP_eq_length_filter, countP_deactivate_self]

theorem deactivate_of_no_active (ch now : Nat) (rows : List SessionRow)
    (h : rows.countP (activeInChannel ch) = 0) :
    deactivateChannel ch now rows = rows := by
  rw [deactivateChannel]
  rw [List.countP_eq_zero] at h
  conv_rhs => rw [← List.map_id rows]
  refine List.map_congr_left fun r hr => ?_
  rw [if_neg (h r hr)]
  rfl

/-- Invariant establishment for `start_echo_session`: the target channel ends
with exactly one active row, and every other channel's count never grows. -/
theorem start_countP (profiles : List ProfileRow) (st : SessionStore)
    (u ch srv req now : Nat) (row : SessionRow) (st' : SessionStore)
    (h : start_echo_session profiles st u ch srv req now = .ok (row, st')) :
    st'.rows.countP (activeInChannel ch) = 1 ∧
      ∀ ch' : Nat, ch' ≠ ch →
        st'.rows.countP (activeInChannel ch') ≤ st.rows.countP (activeInChannel ch') := by
  rw [start_echo_session] at h
  cases hp : findCompletedProfile profiles u srv with
  | none => rw [hp] at h; exact absurd h (by simp)
  | some p =>
    rw [hp] at h
    simp only [Except.ok.injEq, Prod.mk.injEq] at h
    obtain ⟨hrow, hst⟩ := h
    subst hst
    subst hrow
    constructor
    · simp only [List.countP_append, countP_deactivate_self, Nat.zero_add,
        List.countP_cons, List.countP_nil]
      simp [activeInChannel]
    · intro ch' hne
      have hch : (ch == ch') = false := beq_eq_false_iff_ne.mpr (Ne.symm hne)
      simp only [List.countP_append, List.countP_cons, List.countP_nil]
      have h1 : activeInChannel ch'
          { id := st.next_id, profile_id := p.id, channel_id := ch, server_id := srv,
            requester_id := req, is_active := true, messages_generated := 0,
            conversations_started := 0, started_at := now, stopped_at := none,
            last_activity := now } = false := by
        simp [activeInChannel, hch]
      rw [h1]
      simpa using countP_deactivate_le ch ch' now st.rows

/-- Invariant preservation for the deactivate-only and touch-only session
operations (`stop`, idle cleanup, activity update, stat increment). -/
theorem other_ops_countP (st : SessionStore) (ch ch' now cutoff dm dc : Nat) :
    ((stop_echo_session st ch now).2.rows.countP (activeInChannel ch')
        ≤ st.rows.countP (activeInChannel ch')) ∧
    ((cleanup_inactive_sessions st cutoff now).2.rows.countP (activeInChannel ch')
        ≤ st.rows.countP (activeInChannel ch')) ∧
    ((update_session_activity st ch now).rows.countP (activeInChannel ch')
        = st.rows.countP (activeInChannel ch')) ∧
    ((increment_session_stats st ch dm dc now).rows.countP (activeInChannel ch')
        = st.rows.countP (activeInChannel ch')) := by
  refine ⟨?_, ?_, ?_, ?_⟩
  · exact countP_deactivate_le ch ch' now st.rows
  · rw [cleanup_inactive_sessions]
    by_cases hst : (st.rows.filter fun r => r.is_active && r.last_activity < cutoff).isEmpty = true
    · rw [if_pos hst]
    · rw [if_neg hst]
      exact deactMap_le ch' now _ st.rows
  · rw [update_session_activity, List.countP_map]
    refine List.countP_congr fun r _ => ?_
    by_cases hg : activeInChannel ch r = true
    · rw [Function.comp_apply, if_pos hg]
      simp [activeInChannel]
    · rw [Function.comp_apply, if_neg hg]
  · rw [increment_session_stats, List.countP_map]
    refine List.countP_congr fun r _ => ?_
    by_cases hg : activeInChannel ch r = true
    · rw [Function.comp_apply, if_pos hg]
      simp [activeInChannel]
    · rw [Function.comp_apply, if_neg hg]

/-- C1: For every channel, at most one session row has `is_active = true`:
`start_echo_session` deactivates any session active in the channel before
inserting the new active row (so starting P1 then P2 in the same channel
leaves exactly one active session, P2's, with P1's deactivated), and stop,
idle-expiry, stat increment and activity update all preserve the invariant. -/
theorem C1_at_most_one_active_per_channel
    (profiles : List ProfileRow) (st : SessionStore) (hinv : ChannelInv st.rows) :
    (∀ u ch srv req now row st',
        start_echo_session profiles st u ch srv req now = .ok (row, st') →
          ChannelInv st'.rows ∧ st'.rows.countP (activeInChannel ch) = 1) ∧
    (∀ u1 u2 ch srv req1 req2 t1 t2 row1 row2 st1 st2,
        start_echo_session profiles st u1 ch srv req1 t1 = .ok (row1, st1) →
        start_echo_session profiles st1 u2 ch srv req2 t2 = .ok (row2, st2) →
          st2.rows.filter (activeInChannel ch) = [row2] ∧
          row2.is_active = true ∧ row1.is_active = true ∧
          { row1 with is_active := false, stopped_at := some t2 } ∈ st2.rows) ∧
    (∀ ch now, ChannelInv (stop_echo_session st ch now).2.rows) ∧
    (∀ cutoff now, ChannelInv (cleanup_inactive_sessions st cutoff now).2.rows) ∧
    (∀ ch now, ChannelInv (update_session_activity st ch now).rows) ∧
    (∀ ch dm dc now, ChannelInv (increment_session_stats st ch dm dc now).rows) := by
  have hstartRow : ∀ u ch srv req now row st',
      start_echo_session profiles st u ch srv req now = .ok (row, st') →
        row.is_active = true ∧ row.channel_id = ch ∧
          st'.rows = deactivateChannel ch now st.rows ++ [row] := by
    intro u ch srv req now row st' h
    rw [start_echo_session] at h
    cases hp : findCompletedProfile profiles u srv with
    | none => rw [hp] at h; exact absurd h (by simp)
    | some p =>
      rw [hp] at h
      simp only [Except.ok.injEq, Prod.mk.injEq] at h
      obtain ⟨hrow, hst⟩ := h
      subst hst; subst hrow
      exact ⟨rfl, rfl, rfl⟩
  refine ⟨?_, ?_, ?_, ?_, ?_, ?_⟩
  · intro u ch srv req now row st' h
    obtain ⟨h1, h2⟩ := start_countP profiles st u ch srv req now row st' h
    refine ⟨fun ch' => ?_, h1⟩
    by_cases hc : ch' = ch
    · subst hc; omega
    · exact le_trans (h2 ch' hc) (hinv ch')
  · intro u1 u2 ch srv req1 req2 t1 t2 row1 row2 st1 st2 h1 h2
    obtain ⟨ha1, hc1, hs1⟩ := hstartRow u1 ch srv req1 t1 row1 st1 h1
    have hstart2 : ∀ u ch' srv' req now row st',
        start_echo_session profiles st1 u ch' srv' req now = .ok (row, st') →
          row.is_active = true ∧ row.channel_id = ch' ∧
            st'.rows = deactivateChannel ch' now st1.rows ++ [row] := by
      intro u ch' srv' req now row st' h
      rw [start_echo_session] at h
      cases hp : findCompletedProfile profiles u srv' with
      | none => rw [hp] at h; exact absurd h (by simp)
      | some p =>
        rw [hp] at h
        simp only [Except.ok.injEq, Prod.mk.injEq] at h
        obtain ⟨hrow, hst⟩ := h
        subst hst; subst hrow
        exact ⟨rfl, rfl, rfl⟩
    obtain ⟨ha2, hc2, hs2⟩ := hstart2 u2 ch srv req2 t2 row2 st2 h2
    have hact2 : activeInChannel ch row2 = true := by
      simp [activeInChannel, hc2, ha2]
    refine ⟨?_, ha2, ha1, ?_⟩
    · rw [hs2, List.filter_append, filter_deactivate_self]
      simp [hact2]
    · rw [hs2]
      refine List.mem_append_left _ ?_
      rw [deactivateChannel]
      refine List.mem_map.mpr ⟨row1, ?_, ?_⟩
      · rw [hs1]; exact List.mem_append_right _ (List.mem_singleton.mpr rfl)
      · rw [if_pos (by simp [activeInChannel, hc1, ha1])]
  · intro ch now ch'
    exact le_trans (other_ops_countP st ch ch' now 0 0 0).1 (hinv ch')
  · intro cutoff now ch'
    exact le_trans (other_ops_countP st 0 ch' now cutoff 0 0).2.1 (hinv ch')
  · intro ch now ch'
    rw [(other_ops_countP st ch ch' now 0 0 0).2.2.1]
    exact hinv ch'
  · intro ch dm dc now ch'
    rw [(other_ops_countP st ch ch' now 0 dm dc).2.2.2]
    exact hinv ch'

/-- Witness for C1: the P1-then-P2 supersede scenario run concretely
(user 10 then user 11 in channel 7). -/
theorem C1_witness :
    wSt2.rows.filter (activeInChannel 7) = [wRow2] ∧
      wRow2.is_active = true ∧ wRow1.is_active = true ∧
      { wRow1 with is_active := false, stopped_at := some 200 } ∈ wSt2.rows :=
  (C1_at_most_one_active_per_channel wProfiles ⟨[], 0⟩
      (fun ch => by simp [ChannelInv])).2.1
    10 11 7 20 99 98 100 200 wRow1 wRow2 wSt1 wSt2 rfl rfl

/-- C2: `can_start_new_session` is true exactly when the server's active
count is below the ceiling; with 5 active sessions and a ceiling of 5, a 6th
start attempt is refused at the capacity gate ("Session Limit Reached") and
the store — hence each of the 5 existing sessions — is unchanged. -/
theorem C2_capacity_gate (profiles : List ProfileRow) (st : SessionStore)
    (max_sessions u ch srv req now : Nat) :
    (can_start_new_session max_sessions st srv = true ↔
      countActiveInServer srv st.rows < max_sessions) ∧
    (countActiveInServer srv st.rows = 5 → max_sessions = 5 →
      has_echo_profile profiles u srv = true →
      is_echo_active profiles st u ch = false →
      echo_online profiles st max_sessions u ch srv req now = (.limitReached, st)) := by
  constructor
  · simp [can_start_new_session]
  · intro hcount hmax hprof hact
    subst hmax
    rw [echo_online, if_neg (by simp [hprof]), if_neg (by simp [hact]),
      if_pos (by simp [can_start_new_session, hcount])]

/-- Witness for C2: five active sessions in server 20, ceiling 5; the 6th
start for user 10 in channel 6 is refused and the store is unchanged. -/
theorem C2_witness :
    (can_start_new_session 5 wStFull 20 = true ↔
      countActiveInServer 20 wStFull.rows < 5) ∧
    echo_online wProfiles wStFull 5 10 6 20 97 300 = (.limitReached, wStFull) :=
  ⟨(C2_capacity_gate wProfiles wStFull 5 10 6 20 97 300).1,
   (C2_capacity_gate wProfiles wStFull 5 10 6 20 97 300).2
     (by decide) rfl (by decide) (by decide)⟩

/-- C8: `stop_echo_session` is idempotent and never errors: with an active
session in the channel the first call reports `true` and deactivates it; the
immediately following call reports `false` and leaves the store unchanged;
with no active session the call reports `false` and changes nothing. -/
theorem C8_stop_idempotent (st : SessionStore) (ch t1 t2 : Nat) :
    (0 < st.rows.countP (activeInChannel ch) →
      (stop_echo_session st ch t1).1 = true ∧
      (stop_echo_session st ch t1).2.rows.countP (activeInChannel ch) = 0 ∧
      stop_echo_session (stop_echo_session st ch t1).2 ch t2 =
        (false, (stop_echo_session st ch t1).2)) ∧
    (st.rows.countP (activeInChannel ch) = 0 →
      stop_echo_session st ch t1 = (false, st)) := by
  have hzero : ∀ st' : SessionStore, st'.rows.countP (activeInChannel ch) = 0 →
      stop_echo_session st' ch t2 = (false, st') := by
    intro st' h
    rw [stop_echo_session]
    simp only [h, deactivate_of_no_active ch t2 st'.rows h]
    rfl
  constructor
  · intro hpos
    have h1 : (stop_echo_session st ch t1).2.rows.countP (activeInChannel ch) = 0 := by
      rw [stop_echo_session]
      exact countP_deactivate_self ch t1 st.rows
    refine ⟨?_, h1, hzero _ h1⟩
    rw [stop_echo_session]
    simpa using hpos
  · intro h
    rw [stop_echo_session]
    simp only [h, deactivate_of_no_active ch t1 st.rows h]
    rfl

/-- Witness for C8: stopping channel 7 on a store with one active session
there, twice in a row. -/
theorem C8_witness :
    (stop_echo_session wSt1 7 300).1 = true ∧
      (stop_echo_session wSt1 7 300).2.rows.countP (activeInChannel 7) = 0 ∧
      stop_echo_session (stop_echo_session wSt1 7 300).2 7 400 =
        (false, (stop_echo_session wSt1 7 300).2) :=
  (C8_stop_idempotent wSt1 7 300 400).1 (by decide)

/-- C9: for a (user, server) pair with no profile row, both status queries
return the "not_started" default dictionary (progress 0, null
started/completed/error fields) instead of failing. -/
theorem C9_default_status (profiles : List ProfileRow) (u s : Nat)
    (h : ∀ p ∈ profiles, ¬(p.user_id = u ∧ p.server_id = s)) :
    get_analysis_status profiles u s =
      { status := some "not_started", progress := 0, total_messages := 0,
        processed_messages := 0, started_at := none, completed_at := none,
        error_message := none } ∧
    get_training_status profiles u s =
      { status := "not_started", progress := 0, started_at := none,
        completed_at := none, error_message := none, model_path := none } := by
  have hfind : findProfile profiles u s = none := by
    rw [findProfile, List.find?_eq_none]
    intro p hp
    simpa using h p hp
  rw [get_analysis_status, get_training_status, hfind]
  exact ⟨rfl, rfl⟩

/-- Witness for C9: user 999 has no profile in `wProfiles`. -/
theorem C9_witness :
    get_analysis_status wProfiles 999 20 =
      { status := some "not_started", progress := 0, total_messages := 0,
        processed_messages := 0, started_at := none, completed_at := none,
        error_message := none } ∧
    get_training_status wProfiles 999 20 =
      { status := "not_started", progress := 0, started_at := none,
        completed_at := none, error_message := none, model_path := none } :=
  C9_default_status wProfiles 999 20 (by decide)

/-- C4: the dataset size gate of `_run_analysis` succeeds exactly on counts
inside the default [50, 10000] window; at 40 eligible messages the failure
message states "need at least 50"; any count inside the window passes
`validate_training_dataset_size`. -/
theorem C4_dataset_size_window :
    (∀ n, analysis_size_gate n = .ok () ↔ 50 ≤ n ∧ n ≤ 10000) ∧
    validate_training_dataset_size 40 50 10000 =
      (false, some "Insufficient messages for training. Found 40, need at least 50") ∧
    hasSubL "Insufficient messages for training. Found 40, need at least 50".data
      "need at least 50".data = true ∧
    (∀ n mn mx, mn ≤ n → n ≤ mx →
      validate_training_dataset_size n mn mx = (true, none)) := by
  refine ⟨fun n => ?_, by decide, by decide, fun n mn mx h1 h2 => ?_⟩
  · rw [analysis_size_gate, validate_training_dataset_size]
    split_ifs with h0 h1 h2 <;> simp <;> omega
  · rw [validate_training_dataset_size, if_neg (by omega), if_neg (by omega)]

/-- Witness for C4: the gate accepts 60 messages and rejects 40. -/
theorem C4_witness :
    (analysis_size_gate 60 = .ok () ↔ 50 ≤ 60 ∧ 60 ≤ 10000) ∧
    validate_training_dataset_size 60 50 10000 = (true, none) :=
  ⟨C4_dataset_size_window.1 60,
   C4_dataset_size_window.2.2.2 60 50 10000 (by decide) (by decide)⟩

/-- The per-channel scan collects a whole run of eligible messages as long as
the accumulated total stays within the 10000 cap. -/
theorem scan_replicate (u cut : Nat) (m : RawMsg) (hm : eligibleMsg u cut m = true) :
    ∀ (n : Nat) (acc : List RawMsg), acc.length + n ≤ 10000 →
      scanChannel u cut acc (List.replicate n m) = acc ++ List.replicate n m := by
  intro n
  induction n with
  | zero => intro acc _; simp [scanChannel]
  | succ k ih =>
    intro acc hlen
    rw [List.replicate_succ, scanChannel, if_pos hm]
    simp only [List.length_append, List.length_cons, List.length_nil]
    by_cases hcap : 10000 ≤ acc.length + (0 + 1)
    · have hk : k = 0 := by omega
      subst hk
      rw [if_pos (by omega)]
      simp
    · rw [if_neg (by omega)]
      rw [ih (acc ++ [m]) (by simp; omega)]
      simp

/-- C3 (code bug): with 10000 eligible messages in one permitted channel and
one more in a second, `collect_user_messages` returns 10001 messages — the
10000 `break` only leaves the current channel's loop, so the collection-wide
hard cap claimed by the spec is exceeded. -/
theorem C3_cap_exceeded :
    (collect_user_messages 1 10 wChans).length = 10001 := by
  have hm : eligibleMsg 1 10 wGoodMsg = true := by decide
  have h1 : scanChannel 1 10 [] (List.replicate 10000 wGoodMsg)
      = [] ++ List.replicate 10000 wGoodMsg :=
    scan_replicate 1 10 wGoodMsg hm 10000 [] (by simp)
  have h2 : scanChannel 1 10 (List.replicate 10000 wGoodMsg) [wGoodMsg]
      = List.replicate 10000 wGoodMsg ++ [wGoodMsg] := by
    rw [scanChannel, if_pos hm]
    rw [if_pos (by
      simp only [List.length_append, List.length_replicate, List.length_cons,
        List.length_nil]
      omega)]
  rw [collect_user_messages, wChans, List.foldl_cons, List.foldl_cons,
    List.foldl_nil]
  simp only []
  simp only [if_true]
  rw [h1, List.nil_append, h2]
  simp only [List.length_append, List.length_replicate, List.length_cons,
    List.length_nil]

/-- C5: the cutoff validators behave exactly as specified — future dates and
pre-2015 dates are rejected with explanatory messages, in-range well-formed
dates pass — but the `/echo analyze` begin path never invokes them: it
accepts the future date "01.01.2030" and starts the analysis. -/
theorem C5_cutoff_date_validation :
    (∀ s now d m y, dateFormatOk s = some (d, m, y) → strptimeValid d m y = true →
        now < dtSeconds y m d →
        validate_cutoff_date s now =
          (false, some "Cutoff date cannot be in the future")) ∧
    (∀ s now d m y, dateFormatOk s = some (d, m, y) → strptimeValid d m y = true →
        dtSeconds y m d ≤ now → dtSeconds y m d < dtSeconds 2015 1 1 →
        validate_cutoff_date s now =
          (false, some "Cutoff date cannot be before 2015")) ∧
    (∀ s now d m y, dateFormatOk s = some (d, m, y) → strptimeValid d m y = true →
        dtSeconds 2015 1 1 ≤ dtSeconds y m d → dtSeconds y m d ≤ now →
        validate_cutoff_date s now = (true, none)) ∧
    (∀ dt now, now < dt → is_valid_cutoff_date dt now = false) ∧
    echo_analyze true false "01.01.2030" = .started (1, 1, 2030) ∧
    validate_cutoff_date "01.01.2030" (dtSeconds 2026 1 1) =
      (false, some "Cutoff date cannot be in the future") := by
  have hne : ∀ (s : String) (d m y : Nat),
      dateFormatOk s = some (d, m, y) → ¬ s = "" := by
    intro s d m y hfmt heq
    subst heq
    rw [show dateFormatOk "" = none from rfl] at hfmt
    exact Option.noConfusion hfmt
  refine ⟨?_, ?_, ?_, ?_, by decide, by decide⟩
  · intro s now d m y hfmt hv hfut
    rw [validate_cutoff_date, if_neg (hne s d m y hfmt)]
    simp only [hfmt]
    rw [if_neg (by simp [hv]), if_pos (by omega)]
  · intro s now d m y hfmt hv hnow hold
    rw [validate_cutoff_date, if_neg (hne s d m y hfmt)]
    simp only [hfmt]
    rw [if_neg (by simp [hv]), if_neg (by omega), if_pos (by omega)]
  · intro s now d m y hfmt hv h2015 hnow
    rw [validate_cutoff_date, if_neg (hne s d m y hfmt)]
    simp only [hfmt]
    rw [if_neg (by simp [hv]), if_neg (by omega), if_neg (by omega)]
  · intro dt now h
    simp [is_valid_cutoff_date]
    omega

/-- Witness for C5: "15.06.2020" is in range at now = 2026-01-01 and passes;
"31.12.2014" precedes the epoch and is rejected. -/
theorem C5_witness :
    validate_cutoff_date "15.06.2020" (dtSeconds 2026 1 1) = (true, none) ∧
    validate_cutoff_date "31.12.2014" (dtSeconds 2026 1 1) =
      (false, some "Cutoff date cannot be before 2015") :=
  ⟨C5_cutoff_date_validation.2.2.1 "15.06.2020" (dtSeconds 2026 1 1) 15 6 2020
      (by decide) (by decide) (by decide) (by decide),
   C5_cutoff_date_validation.2.1 "31.12.2014" (dtSeconds 2026 1 1) 31 12 2014
      (by decide) (by decide) (by decide) (by decide)⟩

/-- Pieces of `str.split('_')` never contain an underscore. -/
theorem splitUnderscore_no_underscore :
    ∀ l : List Char, ∀ p ∈ splitUnderscore l, '_' ∉ p := by
  intro l
  induction l with
  | nil =>
    intro p hp
    rw [splitUnderscore] at hp
    simp only [List.mem_singleton] at hp
    subst hp
    simp
  | cons c rest ih =>
    intro p hp
    rw [splitUnderscore] at hp
    by_cases hc : c = '_'
    · rw [if_pos hc] at hp
      rcases List.mem_cons.mp hp with h | h
      · subst h; simp
      · exact ih p h
    · rw [if_neg hc] at hp
      cases hrest : splitUnderscore rest with
      | nil =>
        rw [hrest] at hp
        simp only [List.mem_singleton] at hp
        subst hp
        simp only [List.mem_singleton]
        exact fun h => hc h.symm
      | cons q qs =>
        rw [hrest] at hp
        rcases List.mem_cons.mp hp with h | h
        · subst h
          intro hmem
          rcases List.mem_cons.mp hmem with h' | h'
          · exact hc h'.symm
          · exact ih q (by rw [hrest]; exact List.mem_cons_self q qs) h'
        · exact ih p (by rw [hrest]; exact List.mem_cons.mpr (Or.inr h))

/-- The last piece of `str.split('_')` never contains an underscore. -/
theorem getLast_splitUnderscore_no_underscore (l : List Char) :
    '_' ∉ (splitUnderscore l).getLastD [] := by
  have h := splitUnderscore_no_underscore l
  generalize hq : splitUnderscore l = parts at h
  clear hq
  induction parts with
  | nil => simp
  | cons q qs ih =>
    rw [List.getLastD_cons]
    cases qs with
    | nil => simpa using h q (by simp)
    | cons q' qs' =>
      exact ih fun p hp => h p (List.mem_cons.mpr (Or.inr hp))

/-- A successful `strptime('%Y%m%d_%H%M%S')` parse needs a literal
underscore in its input. -/
theorem parseTS_mem_underscore (l : List Char) (ts : Nat)
    (h : parseTS l = some ts) : '_' ∈ l := by
  unfold parseTS at h
  split at h
  · next => simp
  · exact absurd h (by simp)

/-- C7 (code bug): `cleanup_old_models` never deletes anything: generated
model names embed the timestamp as `%Y%m%d_%H%M%S`, which itself contains an
underscore, so `name.split('_')[-1]` keeps only the `%H%M%S` half and the
`strptime` call always fails; every model — however old — is skipped as
"malformed".  Concretely, `echo_user_1_server_2_20200101_120000` follows the
generated-persona convention and is about six years old at now = 2026-01-01,
far beyond the 7-day threshold, yet the deletion count is 0 and nothing is
deleted. -/
theorem C7_cleanup_never_deletes :
    (∀ models days_old now, cleanup_old_models models days_old now = (0, [])) ∧
    startsWithL "echo_user_1_server_2_20200101_120000".data "echo_user_".data = true ∧
    (dtSeconds 2026 1 1 - (dtSeconds 2020 1 1 + 43200)) / 86400 > 7 := by
  refine ⟨fun models days_old now => ?_, by decide, by decide⟩
  have hstep : ∀ (acc : Nat × List String) (name : String),
      cleanup_step days_old now acc name = acc := by
    intro acc name
    rw [cleanup_step]
    by_cases hpre : startsWithL name.data "echo_user_".data = true
    · rw [if_neg (by simp [hpre])]
      cases hts : parseTS ((splitUnderscore name.data).getLastD []) with
      | none => rfl
      | some ts =>
        exact absurd (parseTS_mem_underscore _ ts hts)
          (getLast_splitUnderscore_no_underscore name.data)
    · rw [if_pos (by simp [hpre])]
  rw [cleanup_old_models]
  induction models with
  | nil => rfl
  | cons n ns ih => rw [List.foldl_cons, hstep (0, []) n]; exact ih

/-- C6: the quality gate rejects responses that are blank or shorter than 2
characters after trimming, longer than the configured maximum, containing any
known artifact substring (e.g. "As an AI", "I cannot") regardless of other
properties, or with unique-word ratio below 0.3 (a 20-word response with 4
distinct words is rejected); a response of valid length with ratio 0.5 and no
artifact passes. -/
theorem C6_quality_gate :
    (∀ maxLen (r : String), (pyStrip r).length < 2 →
        validate_model_response maxLen r = false) ∧
    (∀ maxLen (r : String), maxLen < r.length →
        validate_model_response maxLen r = false) ∧
    (∀ maxLen (r : String), hasSubL (lowerStr r).data "as an ai".data = true →
        validate_model_response maxLen r = false) ∧
    (∀ maxLen (r : String), hasSubL (lowerStr r).data "i cannot".data = true →
        validate_model_response maxLen r = false) ∧
    (∀ maxLen (r : String), 1 < (pyWords r).length →
        10 * (pyWords r).eraseDups.length < 3 * (pyWords r).length →
        validate_model_response maxLen r = false) ∧
    validate_model_response 2000 "a a a a a b b b b b c c c c c d d d d d" = false ∧
    validate_model_response 2000 "red blue red blue" = true := by
  have hart : ∀ (a : String) maxLen (r : String), a ∈ ai_artifacts →
      hasSubL (lowerStr r).data (lowerStr a).data = true →
      validate_model_response maxLen r = false := by
    intro a maxLen r hmem hsub
    rw [validate_model_response]
    split_ifs with h1 h2 h3 h4 h5
    · rfl
    · rfl
    · rfl
    · rfl
    · rfl
    · exact absurd (List.any_eq_true.mpr ⟨a, hmem, hsub⟩) h5
  refine ⟨?_, ?_, ?_, ?_, ?_, by decide, by decide⟩
  · intro maxLen r h
    rw [validate_model_response]
    split_ifs <;> rfl
  · intro maxLen r h
    rw [validate_model_response]
    split_ifs <;> rfl
  · intro maxLen r h
    refine hart "As an AI" maxLen r (by decide) ?_
    rw [show (lowerStr "As an AI").data = "as an ai".data from by decide]
    exact h
  · intro maxLen r h
    refine hart "I cannot" maxLen r (by decide) ?_
    rw [show (lowerStr "I cannot").data = "i cannot".data from by decide]
    exact h
  · intro maxLen r hlen hdiv
    rw [validate_model_response]
    split_ifs with h1 h2 h3 h4 h5
    · rfl
    · rfl
    · rfl
    · rfl
    · rfl
    · exact absurd (by simp only [Bool.and_eq_true, decide_eq_true_eq]; omega) h4

/-- Witness for C6: a one-character response and a response containing
"As an AI" are both rejected. -/
theorem C6_witness :
    validate_model_response 2000 " x " = false ∧
    validate_model_response 2000 "Well, As an AI model I like this" = false :=
  ⟨C6_quality_gate.1 2000 " x " (by decide),
   C6_quality_gate.2.2.1 2000 "Well, As an AI model I like this" (by decide)⟩

/-! ## Idempotence of `clean_discord_content`

The proof shows every pattern-occurrence is eliminated by its own
substitution pass, that later passes cannot create an occurrence of an
earlier pattern (each replacement starts with `[`, which no pattern can
traverse, and contains no pattern-initial character), and that whitespace
collapsing and stripping produce a normal form fixed by both. -/

theorem substM_nil (m : List Char → Option (List Char)) (rep : List Char) :
    substM m rep [] = [] := by
  simp [substM]

theorem substM_cons_some (m : List Char → Option (List Char)) (rep : List Char)
    (c : Char) (rest r : List Char) (hm : m (c :: rest) = some r)
    (hlen : r.length ≤ rest.length) :
    substM m rep (c :: rest) = rep ++ substM m rep r := by
  rw [substM, hm]
  simp [hlen]

theorem substM_cons_none (m : List Char → Option (List Char)) (rep : List Char)
    (c : Char) (rest : List Char) (hm : m (c :: rest) = none) :
    substM m rep (c :: rest) = c :: substM m rep rest := by
  rw [substM, hm]

theorem hasMf_nil (m : List Char → Option (List Char)) : hasMf m [] = false := rfl

theorem hasMf_cons (m : List Char → Option (List Char)) (c : Char) (rest : List Char) :
    hasMf m (c :: rest) = ((m (c :: rest)).isSome || hasMf m rest) := rfl

theorem hasMf_cons_false (m : List Char → Option (List Char)) {c : Char}
    {rest : List Char} (h : hasMf m (c :: rest) = false) :
    (m (c :: rest)).isSome = false ∧ hasMf m rest = false := by
  rw [hasMf_cons] at h
  exact ⟨by revert h; cases (m (c :: rest)).isSome <;> simp,
         by revert h; cases hasMf m rest <;> simp⟩

/-- `hasMf` is closed under suffixes. -/
theorem hasMf_suffix_false (m : List Char → Option (List Char)) :
    ∀ {l s : List Char}, s <:+ l → hasMf m l = false → hasMf m s = false := by
  intro l
  induction l with
  | nil =>
    intro s hs h
    rw [List.suffix_nil.mp hs]
    rfl
  | cons c rest ih =>
    intro s hs h
    rcases List.suffix_cons_iff.mp hs with h1 | h1
    · rwa [h1]
    · exact ih h1 (hasMf_cons_false m h).2

/-- Prepending characters that never begin a match leaves `hasMf` alone. -/
theorem hasMf_append_blocked (m : List Char → Option (List Char)) :
    ∀ (rep z : List Char), (∀ d ∈ rep, ∀ t, (m (d :: t)).isSome = false) →
      hasMf m (rep ++ z) = hasMf m z := by
  intro rep
  induction rep with
  | nil => intro z _; rfl
  | cons d rep' ih =>
    intro z hblock
    rw [List.cons_append, hasMf_cons,
      hblock d (List.mem_cons_self d rep') (rep' ++ z),
      ih z fun e he t => hblock e (List.mem_cons.mpr (Or.inr he)) t]
    rfl

/-- The span/replay property of a scanner: a successful match consumes a
non-empty prefix of characters from `good`, and succeeds again on that
prefix whatever follows it. -/
def SpanOK (m : List Char → Option (List Char)) (good : Char → Bool) : Prop :=
  ∀ l r, m l = some r →
    ∃ q, l = q ++ r ∧ q ≠ [] ∧ (∀ c ∈ q, good c = true) ∧
      ∀ t, (m (q ++ t)).isSome = true

theorem SpanOK.len {m good} (h : SpanOK m good) {l r : List Char}
    (hm : m l = some r) : r.length < l.length := by
  obtain ⟨q, hql, hqne, -, -⟩ := h l r hm
  subst hql
  rcases q with - | ⟨a, q'⟩
  · exact absurd rfl hqne
  · simp [List.length_append]
    omega

theorem SpanOK.suffix {m good} (h : SpanOK m good) {l r : List Char}
    (hm : m l = some r) : r <:+ l := by
  obtain ⟨q, hql, -, -, -⟩ := h l r hm
  exact ⟨q, hql.symm⟩

/-- A match survives appending anything to its input. -/
theorem SpanOK.extend {m good} (h : SpanOK m good) {s : List Char}
    (hs : (m s).isSome = true) (ext : List Char) :
    (m (s ++ ext)).isSome = true := by
  cases hm : m s with
  | none => rw [hm] at hs; exact absurd hs (by simp)
  | some r =>
    obtain ⟨q, hql, -, -, hrep⟩ := h s r hm
    subst hql
    rw [List.append_assoc]
    exact hrep (r ++ ext)

/-- No match begins at a character outside `good`. -/
theorem SpanOK.head_bad {m good} (h : SpanOK m good) {d : Char}
    (hd : good d = false) (t : List Char) : (m (d :: t)).isSome = false := by
  cases hm : m (d :: t) with
  | none => rfl
  | some r =>
    obtain ⟨q, hql, hqne, hgood, -⟩ := h (d :: t) r hm
    rcases q with - | ⟨a, q'⟩
    · exact absurd rfl hqne
    · rw [List.cons_append, List.cons.injEq] at hql
      obtain ⟨h1, -⟩ := hql
      subst h1
      exact absurd (hgood d (List.mem_cons_self d q')) (by rw [hd]; simp)

/-- If a match at the start runs over a blocked character, the prefix before
the block already matches — whatever stands after it. -/
theorem SpanOK.escape {m good} (h : SpanOK m good) {bad : Char}
    (hbad : good bad = false) {p z : List Char}
    (hsome : (m (p ++ bad :: z)).isSome = true) (w : List Char) :
    (m (p ++ w)).isSome = true := by
  cases hm : m (p ++ bad :: z) with
  | none => rw [hm] at hsome; exact absurd hsome (by simp)
  | some r =>
    obtain ⟨q, hql, hqne, hgood, hrep⟩ := h (p ++ bad :: z) r hm
    have hbadq : bad ∉ q := fun hmem =>
      absurd (hgood bad hmem) (by rw [hbad]; simp)
    rcases List.append_eq_append_iff.mp hql.symm with ⟨a, ha, -⟩ | ⟨a, ha, hz⟩
    · -- p = q ++ a : replay with the rest of p and w
      rw [ha, List.append_assoc]
      exact hrep (a ++ w)
    · -- q = p ++ a where a is an initial segment of bad :: z
      rcases a with - | ⟨b, a'⟩
      · rw [List.append_nil] at ha
        rw [← ha]
        exact hrep w
      · rw [List.cons_append, List.cons.injEq] at hz
        obtain ⟨hb, -⟩ := hz
        exact absurd (by
          rw [ha, hb]
          exact List.mem_append_right p (List.mem_cons_self b a')) hbadq

/-- A substitution pass is the identity when its pattern never matches. -/
theorem substM_id (m : List Char → Option (List Char)) (rep : List Char) :
    ∀ l, hasMf m l = false → substM m rep l = l := by
  intro l
  induction l with
  | nil => intro _; exact substM_nil m rep
  | cons c rest ih =>
    intro h
    obtain ⟨h1, h2⟩ := hasMf_cons_false m h
    have hm : m (c :: rest) = none := by
      cases hm : m (c :: rest) with
      | none => rfl
      | some r => rw [hm] at h1; exact absurd h1 (by simp)
    rw [substM_cons_none m rep c rest hm, ih h2]

/-- Position-zero non-creation: if pattern `m1` does not match at the head of
`p ++ l`, it still does not match there after a pass of the `(m2, rep2)`
substitution over `l`.  `Hcross` rules out an `m1`-match that crosses from
`p` into a `[`-headed replacement. -/
theorem substNC_b (m1 m2 : List Char → Option (List Char)) (rep2 rep2t : List Char)
    (Hlen2 : ∀ l r, m2 l = some r → r.length < l.length)
    (Hhead2 : rep2 = '[' :: rep2t)
    (Hcross : ∀ p z l', (m1 (p ++ '[' :: z)).isSome = true →
      (m2 l').isSome = true → (m1 (p ++ l')).isSome = true) :
    ∀ l p, (m1 (p ++ l)).isSome = false →
      (m1 (p ++ substM m2 rep2 l)).isSome = false := by
  subst Hhead2
  intro l
  induction l with
  | nil => intro p h; rwa [substM_nil]
  | cons c rest ih =>
    intro p h
    cases hm2 : m2 (c :: rest) with
    | none =>
      rw [substM_cons_none m2 _ c rest hm2,
        List.append_cons _ c (substM m2 ('[' :: rep2t) rest)]
      exact ih (p ++ [c]) (by rwa [← List.append_cons])
    | some r =>
      rw [substM_cons_some m2 _ c rest r hm2
        (Nat.lt_succ_iff.mp (by simpa using Hlen2 _ r hm2))]
      cases hres : (m1 (p ++ ('[' :: rep2t ++ substM m2 ('[' :: rep2t) r))).isSome with
      | false => rfl
      | true =>
        exfalso
        have := Hcross p (rep2t ++ substM m2 ('[' :: rep2t) r) (c :: rest)
          (by rwa [List.cons_append] at hres) (by rw [hm2]; rfl)
        rw [h] at this
        exact Bool.noConfusion this

/-- Non-creation over a whole substitution pass: after substituting
`(m2, rep2)` over `l`, pattern `m1` matches nowhere — provided `m1` matched
nowhere in `l` that `m2` left alone, no character of `rep2` begins an
`m1`-match, and no `m1`-match crosses from literal text into a replacement.
With `m1 = m2` this is completeness of the pass itself. -/
theorem substNC_a (m1 m2 : List Char → Option (List Char)) (rep2 rep2t : List Char)
    (Hlen2 : ∀ l r, m2 l = some r → r.length < l.length)
    (Hsuffix2 : ∀ l r, m2 l = some r → r <:+ l)
    (Hhead2 : rep2 = '[' :: rep2t)
    (Hcross : ∀ p z l', (m1 (p ++ '[' :: z)).isSome = true →
      (m2 l').isSome = true → (m1 (p ++ l')).isSome = true)
    (Hrep2 : ∀ d ∈ rep2, ∀ t, (m1 (d :: t)).isSome = false) :
    ∀ l, (∀ s, s <:+ l → (m2 s).isSome = false → (m1 s).isSome = false) →
      hasMf m1 (substM m2 rep2 l) = false := by
  have main : ∀ n l, l.length ≤ n →
      (∀ s, s <:+ l → (m2 s).isSome = false → (m1 s).isSome = false) →
      hasMf m1 (substM m2 rep2 l) = false := by
    intro n
    induction n with
    | zero =>
      intro l hlen _
      rw [List.length_eq_zero.mp (Nat.le_zero.mp hlen), substM_nil]
      rfl
    | succ k ihn =>
      intro l hlen hnone
      cases l with
      | nil => rw [substM_nil]; rfl
      | cons c rest =>
        cases hm2 : m2 (c :: rest) with
        | none =>
          rw [substM_cons_none m2 rep2 c rest hm2, hasMf_cons]
          have hhead : (m1 (c :: substM m2 rep2 rest)).isSome = false := by
            have hb := substNC_b m1 m2 rep2 rep2t Hlen2 Hhead2 Hcross rest [c]
              (by
                rw [List.singleton_append]
                exact hnone (c :: rest) (List.suffix_refl _) (by rw [hm2]; rfl))
            rwa [List.singleton_append] at hb
          rw [hhead]
          have htail := ihn rest
            (by simp only [List.length_cons] at hlen; omega)
            (fun s hs h2 => hnone s (hs.trans (List.suffix_cons c rest)) h2)
          rw [htail]
          rfl
        | some r =>
          rw [substM_cons_some m2 rep2 c rest r hm2
            (Nat.lt_succ_iff.mp (by simpa using Hlen2 _ r hm2))]
          rw [hasMf_append_blocked m1 rep2 (substM m2 rep2 r) Hrep2]
          refine ihn r ?_ ?_
          · have := Hlen2 _ r hm2
            simp only [List.length_cons] at this hlen
            omega
          · intro s hs h2
            exact hnone s (hs.trans (Hsuffix2 _ r hm2)) h2
  intro l hnone
  exact main l.length l (Nat.le_refl _) hnone

theorem takeWhile_append_blocked {α : Type} (p : α → Bool) :
    ∀ (l1 : List α) (a : α) (l2 : List α), (∀ x ∈ l1, p x = true) → p a = false →
      ((l1 ++ a :: l2).takeWhile p = l1 ∧ (l1 ++ a :: l2).dropWhile p = a :: l2) := by
  intro l1
  induction l1 with
  | nil =>
    intro a l2 _ ha
    rw [List.nil_append, List.takeWhile_cons, List.dropWhile_cons]
    simp [ha]
  | cons x l1' ih =>
    intro a l2 h1 ha
    have hx : p x = true := h1 x (List.mem_cons_self x l1')
    obtain ⟨iht, ihd⟩ := ih a l2 (fun y hy => h1 y (List.mem_cons.mpr (Or.inr hy))) ha
    rw [List.cons_append, List.takeWhile_cons, List.dropWhile_cons]
    simp [hx, iht, ihd]

theorem takeWhile_append_all {α : Type} (p : α → Bool) :
    ∀ (l1 l2 : List α), (∀ x ∈ l1, p x = true) →
      ((l1 ++ l2).takeWhile p = l1 ++ l2.takeWhile p ∧
        (l1 ++ l2).dropWhile p = l2.dropWhile p) := by
  intro l1
  induction l1 with
  | nil => intro l2 _; exact ⟨rfl, rfl⟩
  | cons x l1' ih =>
    intro l2 h1
    have hx : p x = true := h1 x (List.mem_cons_self x l1')
    obtain ⟨iht, ihd⟩ := ih l2 fun y hy => h1 y (List.mem_cons.mpr (Or.inr hy))
    rw [List.cons_append, List.takeWhile_cons, List.dropWhile_cons]
    simp [hx, iht, ihd]

theorem digitsThenGt_some (l r : List Char) (h : digitsThenGt l = some r) :
    ∃ ds, ds ≠ [] ∧ (∀ c ∈ ds, isDigitA c = true) ∧ l = ds ++ '>' :: r := by
  unfold digitsThenGt at h
  split at h
  · next d ds' r' htake hdrop =>
    simp only [Option.some.injEq] at h
    subst h
    refine ⟨d :: ds', by simp, ?_, ?_⟩
    · intro c hc
      rw [← htake] at hc
      exact List.mem_takeWhile_imp hc
    · rw [← htake, ← hdrop, List.takeWhile_append_dropWhile]
  · exact absurd h (by simp)

theorem digitsThenGt_replay (ds : List Char) (t : List Char) (hne : ds ≠ [])
    (hds : ∀ c ∈ ds, isDigitA c = true) :
    digitsThenGt (ds ++ '>' :: t) = some t := by
  obtain ⟨ht, hd⟩ := takeWhile_append_blocked isDigitA ds '>' t hds (by decide)
  unfold digitsThenGt
  rw [ht, hd]
  cases ds with
  | nil => exact absurd rfl hne
  | cons d ds' => rfl

theorem wordColonDigitsGt_some (l r : List Char) (h : wordColonDigitsGt l = some r) :
    ∃ ws ds, ws ≠ [] ∧ (∀ c ∈ ws, isWordA c = true) ∧ ds ≠ [] ∧
      (∀ c ∈ ds, isDigitA c = true) ∧ l = ws ++ ':' :: (ds ++ '>' :: r) := by
  unfold wordColonDigitsGt at h
  split at h
  · next w ws' r' htake hdrop =>
    obtain ⟨ds, hdne, hds, hr'⟩ := digitsThenGt_some r' r h
    refine ⟨w :: ws', ds, by simp, ?_, hdne, hds, ?_⟩
    · intro c hc
      rw [← htake] at hc
      exact List.mem_takeWhile_imp hc
    · rw [← htake, ← hr', ← hdrop, List.takeWhile_append_dropWhile]
  · exact absurd h (by simp)

theorem wordColonDigitsGt_replay (ws ds t : List Char) (hwne : ws ≠ [])
    (hws : ∀ c ∈ ws, isWordA c = true) (hdne : ds ≠ [])
    (hds : ∀ c ∈ ds, isDigitA c = true) :
    wordColonDigitsGt (ws ++ ':' :: (ds ++ '>' :: t)) = some t := by
  obtain ⟨ht, hd⟩ := takeWhile_append_blocked isWordA ws ':' (ds ++ '>' :: t)
    hws (by decide)
  unfold wordColonDigitsGt
  rw [ht, hd]
  cases ws with
  | nil => exact absurd rfl hwne
  | cons w ws' => exact digitsThenGt_replay ds t hdne hds

theorem urlRun_some (l r : List Char) (h : urlRun l = some r) :
    ∃ run, run ≠ [] ∧ (∀ c ∈ run, isUrlChar c = true) ∧ l = run ++ r := by
  unfold urlRun at h
  split at h
  · exact absurd h (by simp)
  · next u run' htake =>
    simp only [Option.some.injEq] at h
    subst h
    refine ⟨u :: run', by simp, ?_, ?_⟩
    · intro c hc
      rw [← htake] at hc
      exact List.mem_takeWhile_imp hc
    · rw [← htake, List.takeWhile_append_dropWhile]

theorem urlRun_replay (run t : List Char) (hne : run ≠ [])
    (hrun : ∀ c ∈ run, isUrlChar c = true) :
    (urlRun (run ++ t)).isSome = true := by
  obtain ⟨ht, -⟩ := takeWhile_append_all isUrlChar run t hrun
  unfold urlRun
  rw [ht]
  cases run with
  | nil => exact absurd rfl hne
  | cons u run' => rfl

/-- Without a leading `!`, a `<@` head always resolves to the general arm. -/
theorem matchUser_noBang (y : List Char) (hy : ∀ t, y ≠ '!' :: t) :
    matchUser ('<' :: '@' :: y) = digitsThenGt y := by
  cases y with
  | nil => rfl
  | cons d y' =>
    by_cases hd : d = '!'
    · exact absurd (by rw [hd]) (hy y')
    · unfold matchUser
      split
      · next heq =>
        exfalso
        simp only [List.cons.injEq] at heq
        exact hd heq.2.2.1
      · next heq =>
        simp only [List.cons.injEq] at heq
        rw [heq.2.2]
      · next hne1 hne2 =>
        exact ((hne2 (d :: y') rfl).elim)

theorem spanUser : SpanOK matchUser goodUser := by
  intro l r h
  unfold matchUser at h
  split at h
  · next rest =>
    obtain ⟨ds, hne, hds, hrest⟩ := digitsThenGt_some rest r h
    refine ⟨'<' :: '@' :: '!' :: (ds ++ ['>']), ?_, by simp, ?_, ?_⟩
    · simp [hrest, List.append_assoc]
    · intro c hc
      simp only [List.mem_cons, List.mem_append, List.mem_singleton,
        List.not_mem_nil, or_false] at hc
      rcases hc with rfl | rfl | rfl | hc | rfl
      · decide
      · decide
      · decide
      · simp [goodUser, hds c hc]
      · decide
    · intro t
      have hq : ('<' :: '@' :: '!' :: (ds ++ ['>'])) ++ t
          = '<' :: '@' :: '!' :: (ds ++ '>' :: t) := by
        simp [List.append_assoc]
      rw [hq]
      have : matchUser ('<' :: '@' :: '!' :: (ds ++ '>' :: t))
          = digitsThenGt (ds ++ '>' :: t) := rfl
      rw [this, digitsThenGt_replay ds t hne hds]
      rfl
  · next rest hne1 =>
    obtain ⟨ds, hne, hds, hrest⟩ := digitsThenGt_some rest r h
    refine ⟨'<' :: '@' :: (ds ++ ['>']), ?_, by simp, ?_, ?_⟩
    · simp [hrest, List.append_assoc]
    · intro c hc
      simp only [List.mem_cons, List.mem_append, List.mem_singleton,
        List.not_mem_nil, or_false] at hc
      rcases hc with rfl | rfl | hc | rfl
      · decide
      · decide
      · simp [goodUser, hds c hc]
      · decide
    · intro t
      have hq : ('<' :: '@' :: (ds ++ ['>'])) ++ t
          = '<' :: '@' :: (ds ++ '>' :: t) := by
        simp [List.append_assoc]
      rw [hq]
      have hnb : ∀ t', ds ++ '>' :: t ≠ '!' :: t' := by
        intro t' heq
        cases ds with
        | nil => simp at heq
        | cons d ds' =>
          rw [List.cons_append, List.cons.injEq] at heq
          have := hds d (List.mem_cons_self d ds')
          rw [heq.1] at this
          exact absurd this (by decide)
      rw [matchUser_noBang _ hnb, digitsThenGt_replay ds t hne hds]
      rfl
  · next => exact absurd h (by simp)

theorem spanRole : SpanOK matchRole goodRole := by
  intro l r h
  unfold matchRole at h
  split at h
  · next rest =>
    obtain ⟨ds, hne, hds, hrest⟩ := digitsThenGt_some rest r h
    refine ⟨'<' :: '@' :: '&' :: (ds ++ ['>']), ?_, by simp, ?_, ?_⟩
    · simp [hrest, List.append_assoc]
    · intro c hc
      simp only [List.mem_cons, List.mem_append, List.mem_singleton,
        List.not_mem_nil, or_false] at hc
      rcases hc with rfl | rfl | rfl | hc | rfl
      · decide
      · decide
      · decide
      · simp [goodRole, hds c hc]
      · decide
    · intro t
      have hq : ('<' :: '@' :: '&' :: (ds ++ ['>'])) ++ t
          = '<' :: '@' :: '&' :: (ds ++ '>' :: t) := by
        simp [List.append_assoc]
      rw [hq]
      have : matchRole ('<' :: '@' :: '&' :: (ds ++ '>' :: t))
          = digitsThenGt (ds ++ '>' :: t) := rfl
      rw [this, digitsThenGt_replay ds t hne hds]
      rfl
  · next => exact absurd h (by simp)

theorem spanChan : SpanOK matchChannel goodChan := by
  intro l r h
  unfold matchChannel at h
  split at h
  · next rest =>
    obtain ⟨ds, hne, hds, hrest⟩ := digitsThenGt_some rest r h
    refine ⟨'<' :: '#' :: (ds ++ ['>']), ?_, by simp, ?_, ?_⟩
    · simp [hrest, List.append_assoc]
    · intro c hc
      simp only [List.mem_cons, List.mem_append, List.mem_singleton,
        List.not_mem_nil, or_false] at hc
      rcases hc with rfl | rfl | hc | rfl
      · decide
      · decide
      · simp [goodChan, hds c hc]
      · decide
    · intro t
      have hq : ('<' :: '#' :: (ds ++ ['>'])) ++ t
          = '<' :: '#' :: (ds ++ '>' :: t) := by
        simp [List.append_assoc]
      rw [hq]
      have : matchChannel ('<' :: '#' :: (ds ++ '>' :: t))
          = digitsThenGt (ds ++ '>' :: t) := rfl
      rw [this, digitsThenGt_replay ds t hne hds]
      rfl
  · next => exact absurd h (by simp)

theorem spanEmoji : SpanOK matchEmoji goodEmoji := by
  intro l r h
  unfold matchEmoji at h
  split at h
  · next rest =>
    obtain ⟨ws, ds, hwne, hws, hdne, hds, hrest⟩ := wordColonDigitsGt_some rest r h
    refine ⟨'<' :: 'a' :: ':' :: (ws ++ ':' :: (ds ++ ['>'])), ?_, by simp, ?_, ?_⟩
    · simp [hrest, List.append_assoc]
    · intro c hc
      simp only [List.mem_cons, List.mem_append, List.mem_singleton,
        List.not_mem_nil, or_false] at hc
      rcases hc with rfl | rfl | rfl | hc | rfl | hc | rfl
      · decide
      · decide
      · decide
      · simp [goodEmoji, hws c hc]
      · decide
      · simp [goodEmoji, hds c hc]
      · decide
    · intro t
      have hq : ('<' :: 'a' :: ':' :: (ws ++ ':' :: (ds ++ ['>']))) ++ t
          = '<' :: 'a' :: ':' :: (ws ++ ':' :: (ds ++ '>' :: t)) := by
        simp [List.append_assoc]
      rw [hq]
      have : matchEmoji ('<' :: 'a' :: ':' :: (ws ++ ':' :: (ds ++ '>' :: t)))
          = wordColonDigitsGt (ws ++ ':' :: (ds ++ '>' :: t)) := rfl
      rw [this, wordColonDigitsGt_replay ws ds t hwne hws hdne hds]
      rfl
  · next rest =>
    obtain ⟨ws, ds, hwne, hws, hdne, hds, hrest⟩ := wordColonDigitsGt_some rest r h
    refine ⟨'<' :: ':' :: (ws ++ ':' :: (ds ++ ['>'])), ?_, by simp, ?_, ?_⟩
    · simp [hrest, List.append_assoc]
    · intro c hc
      simp only [List.mem_cons, List.mem_append, List.mem_singleton,
        List.not_mem_nil, or_false] at hc
      rcases hc with rfl | rfl | hc | rfl | hc | rfl
      · decide
      · decide
      · simp [goodEmoji, hws c hc]
      · decide
      · simp [goodEmoji, hds c hc]
      · decide
    · intro t
      have hq : ('<' :: ':' :: (ws ++ ':' :: (ds ++ ['>']))) ++ t
          = '<' :: ':' :: (ws ++ ':' :: (ds ++ '>' :: t)) := by
        simp [List.append_assoc]
      rw [hq]
      have : matchEmoji ('<' :: ':' :: (ws ++ ':' :: (ds ++ '>' :: t)))
          = wordColonDigitsGt (ws ++ ':' :: (ds ++ '>' :: t)) := rfl
      rw [this, wordColonDigitsGt_replay ws ds t hwne hws hdne hds]
      rfl
  · next => exact absurd h (by simp)

theorem spanURL : SpanOK matchURL goodUrl := by
  intro l r h
  unfold matchURL at h
  split at h
  · next rest =>
    obtain ⟨run, hne, hrun, hrest⟩ := urlRun_some rest r h
    refine ⟨'h' :: 't' :: 't' :: 'p' :: 's' :: ':' :: '/' :: '/' :: run, ?_,
      by simp, ?_, ?_⟩
    · simp [hrest]
    · intro c hc
      simp only [List.mem_cons] at hc
      rcases hc with rfl | rfl | rfl | rfl | rfl | rfl | rfl | rfl | hc
      · decide
      · decide
      · decide
      · decide
      · decide
      · decide
      · decide
      · decide
      · simp [goodUrl, hrun c hc]
    · intro t
      have : matchURL (('h' :: 't' :: 't' :: 'p' :: 's' :: ':' :: '/' :: '/' :: run) ++ t)
          = urlRun (run ++ t) := rfl
      rw [this]
      exact urlRun_replay run t hne hrun
  · next rest =>
    obtain ⟨run, hne, hrun, hrest⟩ := urlRun_some rest r h
    refine ⟨'h' :: 't' :: 't' :: 'p' :: ':' :: '/' :: '/' :: run, ?_,
      by simp, ?_, ?_⟩
    · simp [hrest]
    · intro c hc
      simp only [List.mem_cons] at hc
      rcases hc with rfl | rfl | rfl | rfl | rfl | rfl | rfl | hc
      · decide
      · decide
      · decide
      · decide
      · decide
      · decide
      · decide
      · simp [goodUrl, hrun c hc]
    · intro t
      have : matchURL (('h' :: 't' :: 't' :: 'p' :: ':' :: '/' :: '/' :: run) ++ t)
          = urlRun (run ++ t) := rfl
      rw [this]
      exact urlRun_replay run t hne hrun
  · next => exact absurd h (by simp)

theorem SpanOK.nil {m good} (h : SpanOK m good) : (m []).isSome = false := by
  cases hm : m [] with
  | none => rfl
  | some r =>
    obtain ⟨q, hql, hqne, -, -⟩ := h [] r hm
    exact absurd (List.append_eq_nil.mp hql.symm).1 hqne

theorem hasMf_head_none {m good} (h : SpanOK m good) {l : List Char}
    (hl : hasMf m l = false) : (m l).isSome = false := by
  cases l with
  | nil => exact h.nil
  | cons c rest => exact (hasMf_cons_false m hl).1

theorem matchUser_ne (d : Char) (t : List Char) (hd : d ≠ '<') :
    matchUser (d :: t) = none := by
  unfold matchUser
  split
  · next heq =>
    simp only [List.cons.injEq] at heq
    exact absurd heq.1 hd
  · next heq =>
    simp only [List.cons.injEq] at heq
    exact absurd heq.1 hd
  · rfl

theorem matchRole_ne (d : Char) (t : List Char) (hd : d ≠ '<') :
    matchRole (d :: t) = none := by
  unfold matchRole
  split
  · next heq =>
    simp only [List.cons.injEq] at heq
    exact absurd heq.1 hd
  · rfl

theorem matchChannel_ne (d : Char) (t : List Char) (hd : d ≠ '<') :
    matchChannel (d :: t) = none := by
  unfold matchChannel
  split
  · next heq =>
    simp only [List.cons.injEq] at heq
    exact absurd heq.1 hd
  · rfl

theorem matchEmoji_ne (d : Char) (t : List Char) (hd : d ≠ '<') :
    matchEmoji (d :: t) = none := by
  unfold matchEmoji
  split
  · next heq =>
    simp only [List.cons.injEq] at heq
    exact absurd heq.1 hd
  · next heq =>
    simp only [List.cons.injEq] at heq
    exact absurd heq.1 hd
  · rfl

theorem matchURL_ne (d : Char) (t : List Char) (hd : d ≠ 'h') :
    matchURL (d :: t) = none := by
  unfold matchURL
  split
  · next heq =>
    simp only [List.cons.injEq] at heq
    exact absurd heq.1 hd
  · next heq =>
    simp only [List.cons.injEq] at heq
    exact absurd heq.1 hd
  · rfl

/-- For patterns that cannot traverse `[`, a match over `p ++ '[' :: z`
yields the cross-property needed by the substitution lemmas. -/
theorem crossOfEscape {m1 good1} (h : SpanOK m1 good1) (hbad : good1 '[' = false)
    (m2 : List Char → Option (List Char)) :
    ∀ p z l', (m1 (p ++ '[' :: z)).isSome = true →
      (m2 l').isSome = true → (m1 (p ++ l')).isSome = true :=
  fun _ _ l' hs _ => h.escape hbad hs l'

theorem matchURL_struct (l r : List Char) (h : matchURL l = some r) :
    ∃ lit run, (lit = "https://".data ∨ lit = "http://".data) ∧ run ≠ [] ∧
      (∀ c ∈ run, isUrlChar c = true) ∧ l = (lit ++ run) ++ r := by
  unfold matchURL at h
  split at h
  · next rest =>
    obtain ⟨run, hne, hrun, hrest⟩ := urlRun_some rest r h
    exact ⟨"https://".data, run, Or.inl rfl, hne, hrun, by simp [hrest]⟩
  · next rest =>
    obtain ⟨run, hne, hrun, hrest⟩ := urlRun_some rest r h
    exact ⟨"http://".data, run, Or.inr rfl, hne, hrun, by simp [hrest]⟩
  · exact absurd h (by simp)

theorem urlRun_cons (c : Char) (w : List Char) (hc : isUrlChar c = true) :
    (urlRun (c :: w)).isSome = true := by
  unfold urlRun
  rw [List.takeWhile_cons, if_pos hc]
  rfl

/-- A URL literal prefix followed by a URL-class character always matches. -/
theorem matchURL_lit_head (lit : List Char)
    (hlit : lit = "https://".data ∨ lit = "http://".data)
    (c : Char) (w : List Char) (hc : isUrlChar c = true) :
    (matchURL (lit ++ c :: w)).isSome = true := by
  rcases hlit with rfl | rfl
  · show (urlRun (c :: w)).isSome = true
    exact urlRun_cons c w hc
  · show (urlRun (c :: w)).isSome = true
    exact urlRun_cons c w hc

/-- The URL-specific cross property: a URL match that runs from `p` into a
`[` means `p` ends with `http(s)://` and URL characters, so gluing any other
URL match (which starts with `h`, a URL character) after `p` still matches. -/
theorem crossURL :
    ∀ p z l', (matchURL (p ++ '[' :: z)).isSome = true →
      (matchURL l').isSome = true → (matchURL (p ++ l')).isSome = true := by
  intro p z l' h1 h2
  cases hm : matchURL (p ++ '[' :: z) with
  | none => rw [hm] at h1; exact absurd h1 (by simp)
  | some r =>
    obtain ⟨lit, run, hlit, hrne, hrun, heq⟩ := matchURL_struct _ r hm
    have hl' : ∃ w, l' = 'h' :: w := by
      cases hm2 : matchURL l' with
      | none => rw [hm2] at h2; exact absurd h2 (by simp)
      | some r2 =>
        obtain ⟨lit2, run2, hlit2, -, -, heq2⟩ := matchURL_struct _ r2 hm2
        rcases hlit2 with rfl | rfl
        · exact ⟨_, by rw [heq2]; rfl⟩
        · exact ⟨_, by rw [heq2]; rfl⟩
    obtain ⟨w, rfl⟩ := hl'
    have hh : isUrlChar 'h' = true := by decide
    have hbadlit : '[' ∉ lit := by
      rcases hlit with rfl | rfl <;> decide
    rw [List.append_assoc] at heq
    rcases List.append_eq_append_iff.mp heq with ⟨a2, ha2, hz2⟩ | ⟨a2, ha2, hrr⟩
    · rcases a2 with - | ⟨b, a2'⟩
      · rw [List.append_nil] at ha2
        rw [← ha2]
        exact matchURL_lit_head lit hlit 'h' w hh
      · rw [List.cons_append, List.cons.injEq] at hz2
        exfalso
        apply hbadlit
        rw [ha2, ← hz2.1]
        exact List.mem_append_right p (List.mem_cons_self _ a2')
    · rcases a2 with - | ⟨b, a2'⟩
      · rw [List.append_nil] at ha2
        rw [ha2]
        exact matchURL_lit_head lit hlit 'h' w hh
      · cases run with
        | nil => exact absurd rfl hrne
        | cons ru run' =>
          rw [List.cons_append, List.cons_append, List.cons.injEq] at hrr
          rw [ha2, List.append_assoc, List.cons_append, ← hrr.1]
          exact matchURL_lit_head lit hlit ru (a2' ++ 'h' :: w)
            (hrun ru (List.mem_cons_self ru run'))

theorem collapseWs_nil : collapseWs [] = [] := by
  simp [collapseWs]

theorem collapseWs_cons_sp (c : Char) (rest : List Char) (h : isSpaceA c = true) :
    collapseWs (c :: rest) = ' ' :: collapseWs (rest.dropWhile isSpaceA) := by
  rw [collapseWs, if_pos h]

theorem collapseWs_cons_ns (c : Char) (rest : List Char) (h : isSpaceA c = false) :
    collapseWs (c :: rest) = c :: collapseWs rest := by
  rw [collapseWs, if_neg (by simp [h])]

/-- Position-zero non-creation for whitespace collapsing: a space-free
pattern cannot appear at the head after collapsing if it was not there
before. -/
theorem collapseNC_b {m good} (h : SpanOK m good) (hsp : good ' ' = false) :
    ∀ l p, (m (p ++ l)).isSome = false → (m (p ++ collapseWs l)).isSome = false := by
  intro l
  induction l with
  | nil => intro p hp; rwa [collapseWs_nil]
  | cons c rest ih =>
    intro p hp
    by_cases hc : isSpaceA c = true
    · rw [collapseWs_cons_sp c rest hc]
      cases hres : (m (p ++ ' ' :: collapseWs (rest.dropWhile isSpaceA))).isSome with
      | false => rfl
      | true =>
        exfalso
        have := h.escape hsp hres (c :: rest)
        rw [hp] at this
        exact Bool.noConfusion this
    · rw [collapseWs_cons_ns c rest (by simpa using hc),
        List.append_cons _ c (collapseWs rest)]
      exact ih (p ++ [c]) (by rwa [← List.append_cons])

/-- Whitespace collapsing cannot create an occurrence of a space-free
pattern. -/
theorem collapseNC_a {m good} (h : SpanOK m good) (hsp : good ' ' = false) :
    ∀ l, hasMf m l = false → hasMf m (collapseWs l) = false := by
  have main : ∀ n l, l.length ≤ n → hasMf m l = false →
      hasMf m (collapseWs l) = false := by
    intro n
    induction n with
    | zero =>
      intro l hlen _
      rw [List.length_eq_zero.mp (Nat.le_zero.mp hlen), collapseWs_nil]
      rfl
    | succ k ihn =>
      intro l hlen hno
      cases l with
      | nil => rw [collapseWs_nil]; rfl
      | cons c rest =>
        obtain ⟨hhead, htail⟩ := hasMf_cons_false m hno
        by_cases hc : isSpaceA c = true
        · rw [collapseWs_cons_sp c rest hc, hasMf_cons]
          have h1 : (m (' ' :: collapseWs (rest.dropWhile isSpaceA))).isSome = false :=
            h.head_bad hsp _
          have h2 : hasMf m (collapseWs (rest.dropWhile isSpaceA)) = false := by
            refine ihn _ ?_ ?_
            · have := (List.dropWhile_suffix (l := rest) isSpaceA).length_le
              simp only [List.length_cons] at hlen
              omega
            · exact hasMf_suffix_false m
                ((List.dropWhile_suffix isSpaceA).trans (List.suffix_cons c rest)) hno
          rw [h1, h2]
          rfl
        · rw [collapseWs_cons_ns c rest (by simpa using hc), hasMf_cons]
          have h1 : (m (c :: collapseWs rest)).isSome = false := by
            have hb := collapseNC_b h hsp rest [c]
              (by rwa [List.singleton_append])
            rwa [List.singleton_append] at hb
          have h2 : hasMf m (collapseWs rest) = false := by
            refine ihn rest ?_ htail
            simp only [List.length_cons] at hlen
            omega
          rw [h1, h2]
          rfl
  exact fun l => main l.length l (Nat.le_refl _)

/-- A match inside a prefix survives in the whole list. -/
theorem hasMf_prefix_false {m good} (h : SpanOK m good) :
    ∀ (l1 l2 : List Char), hasMf m (l1 ++ l2) = false → hasMf m l1 = false := by
  intro l1
  induction l1 with
  | nil => intro l2 _; rfl
  | cons c rest ih =>
    intro l2 hno
    rw [List.cons_append] at hno
    obtain ⟨hhead, htail⟩ := hasMf_cons_false m hno
    rw [hasMf_cons, ih l2 htail]
    cases hmc : (m (c :: rest)).isSome with
    | false => rfl
    | true =>
      exfalso
      have := h.extend hmc l2
      rw [List.cons_append] at this
      rw [this] at hhead
      exact Bool.noConfusion hhead

/-- Stripping (a prefix of a suffix) cannot create a pattern occurrence. -/
theorem stripNC {m good} (h : SpanOK m good) :
    ∀ l, hasMf m l = false → hasMf m (stripWs l) = false := by
  intro l hno
  have h1 : hasMf m (l.dropWhile isSpaceA) = false :=
    hasMf_suffix_false m (List.dropWhile_suffix isSpaceA) hno
  obtain ⟨t, ht⟩ := List.rdropWhile_prefix isSpaceA (l.dropWhile isSpaceA)
  rw [stripWs]
  exact hasMf_prefix_false h _ t (by rwa [ht])

theorem wsNormal_cons (c : Char) (rest : List Char) :
    wsNormal (c :: rest) =
      ((if isSpaceA c then c == ' ' && !(isSpaceA (rest.headD 'x')) else true) &&
        wsNormal rest) := rfl

theorem wsNormal_tail {c : Char} {rest : List Char}
    (h : wsNormal (c :: rest) = true) : wsNormal rest = true := by
  rw [wsNormal_cons, Bool.and_eq_true] at h
  exact h.2

theorem wsNormal_dropWhile (p : Char → Bool) :
    ∀ l, wsNormal l = true → wsNormal (l.dropWhile p) = true := by
  intro l
  induction l with
  | nil => intro _; rfl
  | cons c rest ih =>
    intro h
    rw [List.dropWhile_cons]
    by_cases hc : p c = true
    · rw [if_pos hc]
      exact ih (wsNormal_tail h)
    · rw [if_neg hc]
      exact h

theorem wsNormal_prefix : ∀ l1 l2 : List Char,
    wsNormal (l1 ++ l2) = true → wsNormal l1 = true := by
  intro l1
  induction l1 with
  | nil => intro l2 _; rfl
  | cons c rest ih =>
    intro l2 h
    rw [List.cons_append, wsNormal_cons, Bool.and_eq_true] at h
    rw [wsNormal_cons, Bool.and_eq_true]
    refine ⟨?_, ih l2 h.2⟩
    by_cases hc : isSpaceA c = true
    · rw [if_pos hc]
      have h1 := h.1
      rw [if_pos hc, Bool.and_eq_true] at h1
      rw [Bool.and_eq_true]
      refine ⟨h1.1, ?_⟩
      cases rest with
      | nil => decide
      | cons d t =>
        have := h1.2
        rwa [List.cons_append] at this
    · rw [if_neg hc]

theorem head_collapse_nonspace (l : List Char)
    (hl : ∀ (c : Char) (t : List Char), l = c :: t → isSpaceA c = false) :
    isSpaceA ((collapseWs l).headD 'x') = false := by
  cases l with
  | nil => rw [collapseWs_nil]; decide
  | cons c t =>
    rw [collapseWs_cons_ns c t (hl c t rfl)]
    exact hl c t rfl

theorem head_dropWhile_nonspace (rest : List Char) :
    ∀ (c : Char) (t : List Char), rest.dropWhile isSpaceA = c :: t →
      isSpaceA c = false := by
  induction rest with
  | nil => intro c t h; exact absurd h (by simp)
  | cons d rest' ih =>
    intro c t h
    rw [List.dropWhile_cons] at h
    by_cases hd : isSpaceA d = true
    · rw [if_pos hd] at h
      exact ih c t h
    · rw [if_neg hd] at h
      injection h with h1 h2
      rw [← h1]
      simpa using hd

theorem wsNormal_collapse : ∀ l, wsNormal (collapseWs l) = true := by
  have main : ∀ n l, l.length ≤ n → wsNormal (collapseWs l) = true := by
    intro n
    induction n with
    | zero =>
      intro l hlen
      rw [List.length_eq_zero.mp (Nat.le_zero.mp hlen), collapseWs_nil]
      rfl
    | succ k ihn =>
      intro l hlen
      cases l with
      | nil => rw [collapseWs_nil]; rfl
      | cons c rest =>
        simp only [List.length_cons] at hlen
        by_cases hc : isSpaceA c = true
        · rw [collapseWs_cons_sp c rest hc, wsNormal_cons, Bool.and_eq_true]
          constructor
          · rw [if_pos (by decide : isSpaceA ' ' = true)]
            rw [Bool.and_eq_true]
            refine ⟨by decide, ?_⟩
            rw [head_collapse_nonspace _ ?_]
            · rfl
            · intro d t hdt
              exact head_dropWhile_nonspace rest d t hdt
          · refine ihn _ ?_
            have := (List.dropWhile_suffix (l := rest) isSpaceA).length_le
            omega
        · rw [collapseWs_cons_ns c rest (by simpa using hc), wsNormal_cons,
            Bool.and_eq_true]
          exact ⟨by rw [if_neg hc], ihn rest (by omega)⟩
  exact fun l => main l.length l (Nat.le_refl _)

theorem collapse_id_of_wsNormal : ∀ l, wsNormal l = true → collapseWs l = l := by
  intro l
  induction l with
  | nil => intro _; exact collapseWs_nil
  | cons c rest ih =>
    intro h
    have htail := wsNormal_tail h
    rw [wsNormal_cons, Bool.and_eq_true] at h
    by_cases hc : isSpaceA c = true
    · have h1 := h.1
      rw [if_pos hc, Bool.and_eq_true] at h1
      have hdrop : rest.dropWhile isSpaceA = rest := by
        cases rest with
        | nil => rfl
        | cons d t =>
          have h2 := h1.2
          simp only [List.headD_cons, Bool.not_eq_true'] at h2
          rw [List.dropWhile_cons, if_neg (by simp [h2])]
      rw [collapseWs_cons_sp c rest hc, hdrop, ih htail,
        show (' ' : Char) = c from (beq_iff_eq.mp h1.1).symm]
    · rw [collapseWs_cons_ns c rest (by simpa using hc), ih htail]

theorem rdropWhile_eq_self_of_last (l : List Char)
    (h : ∀ (hne : l ≠ []), isSpaceA (l.getLast hne) = false) :
    List.rdropWhile isSpaceA l = l := by
  rcases List.eq_nil_or_concat l with rfl | ⟨l', a, rfl⟩
  · rfl
  · rw [List.concat_eq_append]
    refine List.rdropWhile_concat_neg isSpaceA l' a ?_
    have := h (by rw [List.concat_eq_append]; simp)
    simp only [List.concat_eq_append, List.getLast_concat] at this
    simp [this]

/-- `str.strip()` is idempotent. -/
theorem stripWs_idem (w : List Char) : stripWs (stripWs w) = stripWs w := by
  have hdrop : (stripWs w).dropWhile isSpaceA = stripWs w := by
    cases hu : stripWs w with
    | nil => rfl
    | cons c t =>
      have hu' : List.rdropWhile isSpaceA (w.dropWhile isSpaceA) = c :: t := hu
      obtain ⟨t', ht'⟩ := List.rdropWhile_prefix isSpaceA (w.dropWhile isSpaceA)
      rw [hu'] at ht'
      have hcs : isSpaceA c = false :=
        head_dropWhile_nonspace w c (t ++ t') (by rw [← ht', List.cons_append])
      rw [List.dropWhile_cons, if_neg (by simp [hcs])]
  have hdef : stripWs (stripWs w)
      = List.rdropWhile isSpaceA ((stripWs w).dropWhile isSpaceA) := rfl
  rw [hdef, hdrop]
  refine rdropWhile_eq_self_of_last _ fun hne => ?_
  have hlast := List.rdropWhile_last_not isSpaceA (w.dropWhile isSpaceA)
    (by exact hne)
  exact Bool.eq_false_iff.mpr hlast

/-! ## Assembly of the idempotence of `clean_discord_content` -/

/-- A substitution pass leaves no occurrence of its own pattern behind. -/
theorem selfPass {m : List Char → Option (List Char)} {good : Char → Bool}
    (h : SpanOK m good) (rep rept : List Char) (Hhead : rep = '[' :: rept)
    (Hcross : ∀ p z l', (m (p ++ '[' :: z)).isSome = true →
      (m l').isSome = true → (m (p ++ l')).isSome = true)
    (Hrep : ∀ d ∈ rep, ∀ t, (m (d :: t)).isSome = false)
    (l : List Char) : hasMf m (substM m rep l) = false :=
  substNC_a m m rep rept (fun _ _ hr => h.len hr) (fun _ _ hr => h.suffix hr)
    Hhead Hcross Hrep l (fun _ _ h2 => h2)

/-- A later substitution pass cannot re-introduce an already absent
pattern. -/
theorem crossPass {m1 : List Char → Option (List Char)} {good1 : Char → Bool}
    {m2 : List Char → Option (List Char)} {good2 : Char → Bool}
    (h1 : SpanOK m1 good1) (h2 : SpanOK m2 good2) (rep2 rep2t : List Char)
    (Hhead2 : rep2 = '[' :: rep2t)
    (Hcross : ∀ p z l', (m1 (p ++ '[' :: z)).isSome = true →
      (m2 l').isSome = true → (m1 (p ++ l')).isSome = true)
    (Hrep2 : ∀ d ∈ rep2, ∀ t, (m1 (d :: t)).isSome = false)
    {l : List Char} (hno : hasMf m1 l = false) :
    hasMf m1 (substM m2 rep2 l) = false :=
  substNC_a m1 m2 rep2 rep2t (fun _ _ hr => h2.len hr) (fun _ _ hr => h2.suffix hr)
    Hhead2 Hcross Hrep2 l
    (fun _ hs _ => hasMf_head_none h1 (hasMf_suffix_false m1 hs hno))

theorem rep_blocks {m : List Char → Option (List Char)} {bad : Char}
    (hm : ∀ d t, d ≠ bad → m (d :: t) = none)
    {rep : List Char} (hrep : ∀ d ∈ rep, d ≠ bad) :
    ∀ d ∈ rep, ∀ t, (m (d :: t)).isSome = false :=
  fun d hd t => by rw [hm d t (hrep d hd)]; rfl

theorem noUser_cleanL (l : List Char) : hasMf matchUser (cleanL l) = false := by
  have hblock : ∀ (rep : List Char), (∀ d ∈ rep, d ≠ '<') →
      ∀ d ∈ rep, ∀ t, (matchUser (d :: t)).isSome = false :=
    fun rep hrep => rep_blocks (fun d t hd => matchUser_ne d t hd) hrep
  rw [cleanL]
  refine stripNC spanUser _ (collapseNC_a spanUser (by decide) _ ?_)
  refine crossPass spanUser spanURL repURL ("URL]".data) rfl
    (crossOfEscape spanUser (by decide) matchURL) (hblock repURL (by decide)) ?_
  refine crossPass spanUser spanEmoji repEMOJI ("EMOJI]".data) rfl
    (crossOfEscape spanUser (by decide) matchEmoji) (hblock repEMOJI (by decide)) ?_
  refine crossPass spanUser spanChan repCHANNEL ("CHANNEL]".data) rfl
    (crossOfEscape spanUser (by decide) matchChannel) (hblock repCHANNEL (by decide)) ?_
  refine crossPass spanUser spanRole repROLE ("ROLE]".data) rfl
    (crossOfEscape spanUser (by decide) matchRole) (hblock repROLE (by decide)) ?_
  exact selfPass spanUser repUSER ("USER]".data) rfl
    (crossOfEscape spanUser (by decide) matchUser) (hblock repUSER (by decide)) l

theorem noRole_cleanL (l : List Char) : hasMf matchRole (cleanL l) = false := by
  have hblock : ∀ (rep : List Char), (∀ d ∈ rep, d ≠ '<') →
      ∀ d ∈ rep, ∀ t, (matchRole (d :: t)).isSome = false :=
    fun rep hrep => rep_blocks (fun d t hd => matchRole_ne d t hd) hrep
  rw [cleanL]
  refine stripNC spanRole _ (collapseNC_a spanRole (by decide) _ ?_)
  refine crossPass spanRole spanURL repURL ("URL]".data) rfl
    (crossOfEscape spanRole (by decide) matchURL) (hblock repURL (by decide)) ?_
  refine crossPass spanRole spanEmoji repEMOJI ("EMOJI]".data) rfl
    (crossOfEscape spanRole (by decide) matchEmoji) (hblock repEMOJI (by decide)) ?_
  refine crossPass spanRole spanChan repCHANNEL ("CHANNEL]".data) rfl
    (crossOfEscape spanRole (by decide) matchChannel) (hblock repCHANNEL (by decide)) ?_
  exact selfPass spanRole repROLE ("ROLE]".data) rfl
    (crossOfEscape spanRole (by decide) matchRole) (hblock repROLE (by decide)) _

theorem noChan_cleanL (l : List Char) : hasMf matchChannel (cleanL l) = false := by
  have hblock : ∀ (rep : List Char), (∀ d ∈ rep, d ≠ '<') →
      ∀ d ∈ rep, ∀ t, (matchChannel (d :: t)).isSome = false :=
    fun rep hrep => rep_blocks (fun d t hd => matchChannel_ne d t hd) hrep
  rw [cleanL]
  refine stripNC spanChan _ (collapseNC_a spanChan (by decide) _ ?_)
  refine crossPass spanChan spanURL repURL ("URL]".data) rfl
    (crossOfEscape spanChan (by decide) matchURL) (hblock repURL (by decide)) ?_
  refine crossPass spanChan spanEmoji repEMOJI ("EMOJI]".data) rfl
    (crossOfEscape spanChan (by decide) matchEmoji) (hblock repEMOJI (by decide)) ?_
  exact selfPass spanChan repCHANNEL ("CHANNEL]".data) rfl
    (crossOfEscape spanChan (by decide) matchChannel) (hblock repCHANNEL (by decide)) _

theorem noEmoji_cleanL (l : List Char) : hasMf matchEmoji (cleanL l) = false := by
  have hblock : ∀ (rep : List Char), (∀ d ∈ rep, d ≠ '<') →
      ∀ d ∈ rep, ∀ t, (matchEmoji (d :: t)).isSome = false :=
    fun rep hrep => rep_blocks (fun d t hd => matchEmoji_ne d t hd) hrep
  rw [cleanL]
  refine stripNC spanEmoji _ (collapseNC_a spanEmoji (by decide) _ ?_)
  refine crossPass spanEmoji spanURL repURL ("URL]".data) rfl
    (crossOfEscape spanEmoji (by decide) matchURL) (hblock repURL (by decide)) ?_
  exact selfPass spanEmoji repEMOJI ("EMOJI]".data) rfl
    (crossOfEscape spanEmoji (by decide) matchEmoji) (hblock repEMOJI (by decide)) _

theorem noURL_cleanL (l : List Char) : hasMf matchURL (cleanL l) = false := by
  rw [cleanL]
  refine stripNC spanURL _ (collapseNC_a spanURL (by decide) _ ?_)
  exact selfPass spanURL repURL ("URL]".data) rfl crossURL
    (rep_blocks (fun d t hd => matchURL_ne d t hd) (by decide)) _

theorem wsNormal_stripWs (l : List Char) (h : wsNormal l = true) :
    wsNormal (stripWs l) = true := by
  rw [stripWs]
  have h1 := wsNormal_dropWhile isSpaceA l h
  obtain ⟨t, ht⟩ := List.rdropWhile_prefix isSpaceA (l.dropWhile isSpaceA)
  exact wsNormal_prefix _ t (by rwa [ht])

theorem cleanL_fix (u : List Char)
    (h1 : hasMf matchUser u = false) (h2 : hasMf matchRole u = false)
    (h3 : hasMf matchChannel u = false) (h4 : hasMf matchEmoji u = false)
    (h5 : hasMf matchURL u = false) (h6 : wsNormal u = true)
    (h7 : stripWs u = u) : cleanL u = u := by
  rw [cleanL, substM_id matchUser repUSER u h1, substM_id matchRole repROLE u h2,
    substM_id matchChannel repCHANNEL u h3, substM_id matchEmoji repEMOJI u h4,
    substM_id matchURL repURL u h5, collapse_id_of_wsNormal u h6, h7]

theorem cleanL_idem (l : List Char) : cleanL (cleanL l) = cleanL l := by
  refine cleanL_fix _ (noUser_cleanL l) (noRole_cleanL l) (noChan_cleanL l)
    (noEmoji_cleanL l) (noURL_cleanL l) ?_ ?_
  · rw [cleanL]
    exact wsNormal_stripWs _ (wsNormal_collapse _)
  · rw [cleanL]
    exact stripWs_idem _

/-- C10: `clean_discord_content` is idempotent — running the cleaning
pipeline a second time on its own output changes nothing: no pattern
occurrence survives or is created by the substitutions, the whitespace is
already collapsed, and the ends are already stripped. -/
theorem C10_clean_idempotent (s : String) :
    clean_discord_content (clean_discord_content s) = clean_discord_content s := by
  by_cases hs : s = ""
  · subst hs
    rfl
  · have hcs : clean_discord_content s = String.mk (cleanL s.data) := by
      rw [clean_discord_content, if_neg hs]
    rw [hcs, clean_discord_content]
    by_cases hu : cleanL s.data = []
    · rw [hu]
      rfl
    · rw [if_neg ?_]
      · show String.mk (cleanL (cleanL s.data)) = String.mk (cleanL s.data)
        rw [cleanL_idem]
      · intro h
        exact hu (by simpa using congrArg String.data h)
